import Mathlib

/-!
Verification of the jsdoc-generator extension sources.

The development shallowly embeds the JSDoc builder (src JsdocBuilder, the
revision whose line numbers the claims reference), the per-file generator
loop (src JsdocGenerator) and the per-node JSDoc bookkeeping (src TsFile).

Modelling conventions:
* configuration reads (getConfig) become fields of an explicit Config value;
* a SnippetString is modelled as the list of its lines, each line a
  structured JLine value whose renderLine gives the exact text the source
  appends (placeholder regions render as their text; the backslash strip
  performed after appendText is the identity at this level);
* the TypeScript checker is an oracle: each node carries the strings the
  checker would return (inferred type text, type annotation text);
* the asynchronous generator loop becomes a clock-passing function: every
  await advances the clock by one, and a vscode CancellationToken becomes
  the instant (if any) from which isCancellationRequested reads true.
-/

namespace JsdocGen

/-! ### A regular-expression matcher (Brzozowski derivatives)

The source tests compound (union or intersection) types with the JS regex
/^[^(<]+([^(<]|[(<].*[)>])*(&|\|).*$/ inside checkParenthesisUse. The
matcher below decides membership in the language of such a pattern; the
pattern itself is transcribed in compoundRe. Since the JS pattern is
anchored at both ends and has no multiline flag, RegExp.test holds exactly
when the whole string is in the language. -/

/-- Regular expressions over characters, with arbitrary character classes. -/
inductive Re : Type
  | emp : Re
  | eps : Re
  | cls : (Char → Bool) → Re
  | alt : Re → Re → Re
  | cat : Re → Re → Re
  | star : Re → Re

/-- Whether a regular expression accepts the empty string. -/
def Re.nullable : Re → Bool
  | .emp => false
  | .eps => true
  | .cls _ => false
  | .alt a b => a.nullable || b.nullable
  | .cat a b => a.nullable && b.nullable
  | .star _ => true

/-- Brzozowski derivative of a regular expression by one character. -/
def Re.deriv : Re → Char → Re
  | .emp, _ => .emp
  | .eps, _ => .emp
  | .cls p, c => if p c then .eps else .emp
  | .alt a b, c => .alt (a.deriv c) (b.deriv c)
  | .cat a b, c =>
    if a.nullable then .alt (.cat (a.deriv c) b) (b.deriv c) else .cat (a.deriv c) b
  | .star a, c => .cat (a.deriv c) (.star a)

/-- Whether the regular expression accepts exactly the given character list. -/
def Re.matches (r : Re) (s : List Char) : Bool :=
  (s.foldl Re.deriv r).nullable

/-- One or more repetitions. -/
def Re.plus (r : Re) : Re := .cat r (.star r)

/-- Character class [^(<]. -/
def nonOpenCls (c : Char) : Bool := !(c = '(' || c = '<')

/-- Character class [(<]. -/
def openCls (c : Char) : Bool := c = '(' || c = '<'

/-- Character class [)>]. -/
def closeCls (c : Char) : Bool := c = ')' || c = '>'

/-- JS dot: any character except a line terminator (LF, CR, LS, PS). -/
def dotCls (c : Char) : Bool :=
  !(c = '\n' || c = '\r' || c = Char.ofNat 0x2028 || c = Char.ofNat 0x2029)

/-- Character class (&|\|). -/
def ampOrBarCls (c : Char) : Bool := c = '&' || c = '|'

/-- The pattern ^[^(<]+([^(<]|[(<].*[)>])*(&|\|).*$ from checkParenthesisUse. -/
def compoundRe : Re :=
  .cat (Re.plus (.cls nonOpenCls))
    (.cat
      (.star (.alt (.cls nonOpenCls)
        (.cat (.cls openCls) (.cat (.star (.cls dotCls)) (.cls closeCls)))))
      (.cat (.cls ampOrBarCls) (.star (.cls dotCls))))

/-- RegExp.prototype.test of the anchored pattern on a string: full match. -/
def isCompoundType (s : String) : Bool :=
  compoundRe.matches s.toList

/-! ### Configuration (the getConfig surface used by the embedded code) -/

/-- One entry of the customTags configuration array. -/
structure CustomTag : Type where
  tag : String
  placeholder : String
deriving DecidableEq, Repr

/-- The configuration keys read by the embedded JsdocBuilder code. -/
structure Config : Type where
  includeTypes : Bool
  includeParenthesisForMultipleTypes : Bool
  includeExport : Bool
  includeAsync : Bool
  includeDate : Bool
  includeTime : Bool
  descriptionPlaceholder : String
  author : String
  dateText : String
  timeText : String
  customTags : List CustomTag
deriving Repr

/-! ### Syntax nodes (the slice of the TypeScript AST the code inspects) -/

/-- The TypeScript SyntaxKind values the embedded code compares against. -/
inductive SynKind : Type
  | parameter
  | propertySignature
  | propertyDeclaration
  | variableDeclaration
  | methodSignature
  | methodDeclaration
  | constructorDecl
  | getAccessor
  | setAccessor
  | callSignature
  | functionExpression
  | arrowFunction
  | variableStatement
  | variableDeclarationList
  | functionDeclaration
  | classDeclaration
  | interfaceDeclaration
  | typeAliasDeclaration
  | enumDeclaration
  | enumMember
  | classExpression
  | otherKind
deriving DecidableEq, Repr

/-- Modifier kinds handled by buildJsdocModifiers. -/
inductive ModifierKind : Type
  | exportKw
  | privateKw
  | protectedKw
  | publicKw
  | staticKw
  | abstractKw
  | asyncKw
  | readonlyKw
  | overrideKw
  | otherKw
deriving DecidableEq, Repr

/-- A typed node (property, accessor, parameter, method, variable): the
data of the TypedNode union that retrieveType and getTypePrefix inspect.
type is the annotation text (node.type.getText()); inferred is the oracle
answer of tsFile.inferType(node); initText is the initializer text. -/
structure NodeM : Type where
  kind : SynKind
  name : String
  type : Option String
  inferred : String
  questionToken : Bool
  exclamationToken : Bool
  dotDotDotToken : Bool
  asteriskToken : Bool
  initText : Option String
  modifiers : List ModifierKind
deriving Repr

/-- inferType: formats tsFile.inferType for JSDoc, mapping failures and any
to the wildcard. -/
def inferTypeFmt (n : NodeM) : String :=
  if n.inferred = "" ∨ n.inferred = "any" then "*" else n.inferred

/-- getTypePrefix: the mutually exclusive type modifier [?, !, ..., *]. -/
def getTypePfx (n : NodeM) : String :=
  if n.kind ≠ SynKind.variableDeclaration ∧ n.questionToken then "?"
  else if n.kind ≠ SynKind.parameter ∧ n.exclamationToken then "!"
  else if n.kind = SynKind.parameter ∧ n.dotDotDotToken then "..."
  else if n.kind ≠ SynKind.propertyDeclaration ∧ n.kind ≠ SynKind.parameter ∧
      n.kind ≠ SynKind.variableDeclaration ∧ n.asteriskToken then "*"
  else ""

/-- checkParenthesisUse: wrap union and intersection types when the policy
is enabled or a type modifier is present. -/
def checkParenthesisUse (cfg : Config) (type pfx : String) : Bool :=
  isCompoundType type && (cfg.includeParenthesisForMultipleTypes || pfx != "")

/-- The type text computed inside retrieveType before parenthesization:
annotation text if present (any canonicalized to the wildcard), otherwise
the formatted inferred type. -/
def canonicalTypeText (n : NodeM) : String :=
  match n.type with
  | none => inferTypeFmt n
  | some s => if s = "any" then "*" else s

/-- retrieveType: the full rendered type of a typed node, empty when
includeTypes is disabled. -/
def retrieveType (cfg : Config) (n : NodeM) : String :=
  if cfg.includeTypes then
    let pfx := getTypePfx n
    let t :=
      match n.type with
      | none => inferTypeFmt n
      | some s => if s = "any" then "*" else s
    let t := if checkParenthesisUse cfg t pfx then "(" ++ t ++ ")" else t
    pfx ++ t
  else ""

/-! ### JSDoc lines (the SnippetString as a list of structured lines)

Each appended line of the source becomes one JLine; renderLine produces the
exact text the source appends for it (the backslash that appendText adds in
front of a closing brace is removed again right away by the source, so it
does not appear at this level; placeholder regions render as their text). -/

/-- One line of the JSDoc being built. -/
inductive JLine : Type
  | opener : JLine
  | text : String → JLine
  | authorPh : String → JLine
  | tagLine : String → String → String → String → JLine
  | closer : JLine
deriving DecidableEq, Repr

/-- The text of one line, newline included, exactly as the source appends it. -/
def renderLine : JLine → String
  | .opener => "/**\n"
  | .text s => " * " ++ s ++ "\n"
  | .authorPh s => " * @author " ++ s ++ "\n"
  | .tagLine tag tagValue wrapper extraValue =>
    " *" ++
      (if tag ≠ "" then
        " @" ++ tag ++
          (if tagValue ≠ "" then
            " " ++ wrapper.take (wrapper.length / 2) ++ tagValue ++
              wrapper.drop (wrapper.length / 2)
          else "") ++
          (if extraValue ≠ "" then " " ++ extraValue else "")
      else "") ++ "\n"
  | .closer => " */\n"

/-- The whole snippet text: concatenation of the rendered lines. -/
def renderJsdoc (j : List JLine) : String :=
  (j.map renderLine).foldl (· ++ ·) ""

/-- buildJsdocLine: append a single (possibly empty) tag line. -/
def buildJsdocLine (j : List JLine) (tag tagValue wrapper extraValue : String) :
    List JLine :=
  j ++ [JLine.tagLine tag tagValue wrapper extraValue]

/-- buildJsdocLines: one line per tag value, extra values used by index. -/
def buildJsdocLines (j : List JLine) (tag : String) (tagValues : List String)
    (wrapper : String) (extraValues : List String) : List JLine :=
  tagValues.enum.foldl
    (fun acc p => buildJsdocLine acc tag p.2 wrapper (extraValues.getD p.1 "")) j

/-- buildDescription: a line with the description, or else the configured
placeholder, or else nothing after the asterisk. -/
def buildDescription (cfg : Config) (j : List JLine) (description : String) :
    List JLine :=
  j ++ [JLine.text
    (if description ≠ "" then description
     else if cfg.descriptionPlaceholder ≠ "" then cfg.descriptionPlaceholder
     else "")]

/-- buildAuthor: the author line, with the special placeholder form when the
configured value is the word author. -/
def buildAuthor (cfg : Config) (j : List JLine) : List JLine :=
  if cfg.author ≠ "" then
    if cfg.author = "author" then j ++ [JLine.authorPh cfg.author]
    else buildJsdocLine j "author" cfg.author "" ""
  else j

/-- buildDate: the date line with the formatted date and optional time. -/
def buildDate (cfg : Config) (j : List JLine) : List JLine :=
  if cfg.includeDate then
    buildJsdocLine j "date"
      (cfg.dateText ++ (if cfg.includeTime then " - " ++ cfg.timeText else "")) "" ""
  else j

/-- buildJsdocHeader: opening line, description, date, author, blank line. -/
def buildJsdocHeader (cfg : Config) (j : List JLine) : List JLine :=
  buildJsdocLine
    (buildAuthor cfg (buildDate cfg (buildDescription cfg (j ++ [JLine.opener]) "")))
    "" "" "\x7b\x7d" ""

/-- buildJsdocModifiers: one line per handled modifier, in source order. -/
def buildJsdocModifiers (cfg : Config) (j : List JLine)
    (modifiers : List ModifierKind) : List JLine :=
  modifiers.foldl
    (fun acc m =>
      match m with
      | .exportKw =>
        if cfg.includeExport then buildJsdocLine acc "export" "" "\x7b\x7d" "" else acc
      | .privateKw => buildJsdocLine acc "private" "" "\x7b\x7d" ""
      | .protectedKw => buildJsdocLine acc "protected" "" "\x7b\x7d" ""
      | .publicKw => buildJsdocLine acc "public" "" "\x7b\x7d" ""
      | .staticKw => buildJsdocLine acc "static" "" "\x7b\x7d" ""
      | .abstractKw => buildJsdocLine acc "abstract" "" "\x7b\x7d" ""
      | .asyncKw =>
        if cfg.includeAsync then buildJsdocLine acc "async" "" "\x7b\x7d" "" else acc
      | .readonlyKw => buildJsdocLine acc "readonly" "" "\x7b\x7d" ""
      | .overrideKw => buildJsdocLine acc "override" "" "\x7b\x7d" ""
      | .otherKw => acc)
    j

/-- buildTypeParameters: template lines for the type parameters, if any. -/
def buildTypeParameters (j : List JLine) (typeParameters : Option (List String)) :
    List JLine :=
  match typeParameters with
  | some tps => buildJsdocLines j "template" tps "" []
  | none => j

/-- buildCustomTags: one unwrapped line per configured custom tag. -/
def buildCustomTags (cfg : Config) (j : List JLine) : List JLine :=
  cfg.customTags.foldl
    (fun acc t => if t.tag ≠ "" then buildJsdocLine acc t.tag t.placeholder "" "" else acc)
    j

/-- buildJsdocParameters: one param line per parameter, the name bracketed
with its default when the parameter is optional. -/
def buildJsdocParameters (cfg : Config) (j : List JLine)
    (parameters : List NodeM) : List JLine :=
  let mapped := parameters.map (fun p =>
    let t := retrieveType cfg p
    let ini := match p.initText with | some s => "=" ++ s | none => ""
    let isOptional := p.questionToken || ini ≠ ""
    let nm := if isOptional then "[" ++ p.name ++ ini ++ "]" else p.name
    (t, nm))
  buildJsdocLines j "param" (mapped.map Prod.fst) "\x7b\x7d" (mapped.map Prod.snd)

/-- Whether a line is the blank JSDoc line built by buildJsdocLine with no
tag: such a line renders as an asterisk alone, which is what the string
surgery in buildJsdocEnd looks for. -/
def isBlankLine : JLine → Bool
  | .tagLine tag _ _ _ => tag = ""
  | _ => false

/-- Whether the last line is the blank JSDoc line, which is when the value
ends in a lone asterisk line. -/
def lastIsBlank (j : List JLine) : Bool :=
  match j.getLast? with
  | some l => isBlankLine l
  | none => false

/-- The first string surgery of buildJsdocEnd: when the value ends with a
blank JSDoc line and holds more than two lines, that trailing blank line is
sliced away. -/
def trimTrailingBlank (j : List JLine) : List JLine :=
  if lastIsBlank j ∧ 2 < j.length then j.dropLast else j

/-- The second string surgery of buildJsdocEnd: when the value starts with
the opener followed by a blank JSDoc line and holds more than two lines,
that blank line is sliced away. -/
def trimHeaderBlank (j : List JLine) : List JLine :=
  match j with
  | JLine.opener :: l :: rest =>
    if isBlankLine l ∧ 2 < (JLine.opener :: l :: rest).length then JLine.opener :: rest
    else JLine.opener :: l :: rest
  | _ => j

/-- buildJsdocEnd: drop a trailing blank line, drop a blank line right after
the opener (each only when more than two lines exist), then close. -/
def buildJsdocEnd (j : List JLine) : List JLine :=
  trimHeaderBlank (trimTrailingBlank j) ++ [JLine.closer]

/-! ### Method and accessor builders -/

/-- Drop everything up to and including the first arrow separator. -/
def dropThruArrow : List Char → Option (List Char)
  | [] => none
  | '=' :: '>' :: ' ' :: rest => some rest
  | _ :: rest => dropThruArrow rest

/-- The return part of a rendered function type: what substring takes from
the index right after the first arrow separator (empty when there is none,
since the start index then lies past the end). -/
def arrowReturnPart (s : String) : String :=
  match dropThruArrow s.toList with
  | some r => String.mk r
  | none => ""

/-- A method declaration: its own typed-node data plus type parameters and
parameters. -/
structure MethodNode : Type where
  node : NodeM
  typeParameters : Option (List String)
  parameters : List NodeM
deriving Repr

/-- The return type buildJsdocReturn resolves before the void check: the
annotation text if present, else the return part of the inferred function
type, with any canonicalized to the wildcard. -/
def resolvedReturnType (m : MethodNode) : String :=
  let rt :=
    match m.node.type with
    | some s => s
    | none => arrowReturnPart (inferTypeFmt m.node)
  if rt = "any" then "*" else rt

/-- buildJsdocReturn: a returns line unless the resolved type is void,
parenthesized by the same rule as other types (with no type modifier). -/
def buildJsdocReturn (cfg : Config) (j : List JLine) (m : MethodNode) :
    List JLine :=
  let rt :=
    match m.node.type with
    | some s => s
    | none => arrowReturnPart (inferTypeFmt m.node)
  let rt := if rt = "any" then "*" else rt
  if rt ≠ "void" then
    let rt := if checkParenthesisUse cfg rt "" then "(" ++ rt ++ ")" else rt
    buildJsdocLine j "returns" (if cfg.includeTypes then rt else "") "\x7b\x7d" ""
  else j

/-- getMethodDeclarationJsdoc: header, modifiers, type parameters,
parameters, return, custom tags, terminator. -/
def getMethodDeclarationJsdoc (cfg : Config) (m : MethodNode) : List JLine :=
  buildJsdocEnd
    (buildCustomTags cfg
      (buildJsdocReturn cfg
        (buildJsdocParameters cfg
          (buildTypeParameters
            (buildJsdocModifiers cfg (buildJsdocHeader cfg []) m.node.modifiers)
            m.typeParameters)
          m.parameters)
        m))

/-! ### Accessor builder -/

/-- One member of the enclosing class-like declaration, as inspected by the
paired-accessor lookup: its kind, its optional name, and its jsDoc data.
jsDoc is none when the member has no attached JSDoc (tsFile.hasJsdoc is
false); otherwise it carries the comment text of the first JSDoc, itself
optional exactly as getTextOfJSDocComment is. -/
structure MemberM : Type where
  kind : SynKind
  mname : Option String
  jsDoc : Option (Option String)
deriving DecidableEq, Repr

/-- The pairedAccessor lookup: first member of the other accessor kind with
the same name. -/
def findPaired (node : NodeM) (members : List MemberM) : Option MemberM :=
  let otherK :=
    if node.kind = SynKind.getAccessor then SynKind.setAccessor else SynKind.getAccessor
  members.find? (fun m => decide (m.kind = otherK ∧ m.mname = some node.name))

/-- getAccessorDeclarationJsdoc: reuse the paired accessor description when
it has a JSDoc; otherwise the full header with an extra readonly line for a
get accessor without a paired setter. -/
def getAccessorDeclarationJsdoc (cfg : Config) (node : NodeM)
    (members : List MemberM) : List JLine :=
  let paired := findPaired node members
  let pairedJs : Option (Option String) :=
    match paired with
    | some p => p.jsDoc
    | none => none
  let j :=
    match pairedJs with
    | some c => buildDescription cfg [JLine.opener] (c.getD "")
    | none =>
      let j1 := buildJsdocModifiers cfg (buildJsdocHeader cfg []) node.modifiers
      let j2 :=
        if node.kind = SynKind.getAccessor ∧ paired.isNone then
          buildJsdocLine j1 "readonly" "" "\x7b\x7d" ""
        else j1
      if cfg.includeTypes then
        buildJsdocLine j2 "type" (retrieveType cfg node) "\x7b\x7d" ""
      else j2
  buildJsdocEnd (buildCustomTags cfg j)

/-! ### TsFile support checks -/

/-- supportedNodes: the SyntaxKind values that can take a JSDoc. -/
def supportedNodes : List SynKind :=
  [SynKind.propertySignature, SynKind.propertyDeclaration, SynKind.methodSignature,
   SynKind.methodDeclaration, SynKind.constructorDecl, SynKind.getAccessor,
   SynKind.setAccessor, SynKind.callSignature, SynKind.functionExpression,
   SynKind.arrowFunction, SynKind.variableStatement, SynKind.variableDeclarationList,
   SynKind.functionDeclaration, SynKind.classDeclaration, SynKind.interfaceDeclaration,
   SynKind.typeAliasDeclaration, SynKind.enumDeclaration, SynKind.enumMember]

/-- isNodeSupported on a kind. -/
def isNodeSupported (k : SynKind) : Bool :=
  supportedNodes.contains k

/-- The class-like test of writeFileJsdoc: statements whose members are
visited. -/
def isClassLikeStmt (k : SynKind) : Bool :=
  k = SynKind.classExpression || k = SynKind.classDeclaration ||
    k = SynKind.interfaceDeclaration

/-! ### The generator loop (JsdocGenerator)

Cancellation model: every awaited operation advances an explicit clock by
one; a CancellationToken is the clock instant (if any) at and after which
isCancellationRequested reads true, which is how a vscode token behaves
once the user cancels. Each recorded insertion keeps the clock instant at
which it was made, so that statements about what happens after cancellation
can be made. The JSDoc text itself is irrelevant to these claims, so an
insertion is recorded as its target start offset. -/

/-- isCancellationRequested: true from the cancellation instant onwards. -/
def isCancelRequested (cancelAt : Option Nat) (clock : Nat) : Bool :=
  match cancelAt with
  | some k => decide (k ≤ clock)
  | none => false

/-- The mutable data of one generation run: the clock and the accumulated
workspace edit, each entry an inserted start offset with the clock instant
of its insertion. -/
structure GenSt : Type where
  clock : Nat
  edits : List (Nat × Nat)
deriving DecidableEq, Repr

/-- One await: the clock advances. -/
def tick (s : GenSt) : GenSt := { s with clock := s.clock + 1 }

/-- writeJsdoc for one node at a given start offset: cancellation check,
await of the build (one tick), cancellation check, insertion (recorded,
then one tick for the await of the insert by the caller). -/
def writeJsdocG (cancelAt : Option Nat) (pos : Nat) (s : GenSt) : Bool × GenSt :=
  if isCancelRequested cancelAt s.clock then (false, s)
  else
    let s1 := tick s
    if isCancelRequested cancelAt s1.clock then (false, s1)
    else (true, { clock := s1.clock + 1, edits := s1.edits ++ [(pos, s1.clock)] })

/-- writeJsdocConditionally: write only when the node has no JSDoc yet. -/
def writeJsdocCondG (cancelAt : Option Nat) (pos : Nat) (hasJsdoc : Bool)
    (s : GenSt) : Bool × GenSt :=
  if !hasJsdoc then writeJsdocG cancelAt pos s else (false, s)

/-- One member of a class-like statement, as the file loop sees it. -/
structure GMember : Type where
  gstart : Nat
  ghasJsdoc : Bool
deriving DecidableEq, Repr

/-- One top-level statement, as the file loop sees it. -/
structure GStatement : Type where
  kind : SynKind
  gstart : Nat
  ghasJsdoc : Bool
  members : List GMember
deriving DecidableEq, Repr

/-- The member loop of writeFileJsdoc, on an already reversed member list:
cancellation check, conditional write, cancellation check, progress report.
The boolean result signals the early return taken on cancellation. -/
def processMembersG (cancelAt : Option Nat) :
    List GMember → Nat → GenSt → Nat × GenSt × Bool
  | [], n, s => (n, s, false)
  | m :: rest, n, s =>
    if isCancelRequested cancelAt s.clock then (n, s, true)
    else
      let r := writeJsdocCondG cancelAt m.gstart m.ghasJsdoc s
      let n1 := n + (if r.1 then 1 else 0)
      if isCancelRequested cancelAt r.2.clock then (n1, r.2, true)
      else processMembersG cancelAt rest n1 r.2

/-- The statement loop of writeFileJsdoc, on an already reversed statement
list: members of class-like statements first (last to first), then the
statement itself, with cancellation checks around every conditional write. -/
def processStatementsG (cancelAt : Option Nat) :
    List GStatement → Nat → GenSt → Nat × GenSt × Bool
  | [], n, s => (n, s, false)
  | st :: rest, n, s =>
    if isNodeSupported st.kind then
      let mres :=
        if isClassLikeStmt st.kind then processMembersG cancelAt st.members.reverse n s
        else (n, s, false)
      if mres.2.2 then (mres.1, mres.2.1, true)
      else if isCancelRequested cancelAt mres.2.1.clock then (mres.1, mres.2.1, true)
      else
        let r := writeJsdocCondG cancelAt st.gstart st.ghasJsdoc mres.2.1
        let n2 := mres.1 + (if r.1 then 1 else 0)
        if isCancelRequested cancelAt r.2.clock then (n2, r.2, true)
        else processStatementsG cancelAt rest n2 r.2
    else processStatementsG cancelAt rest n s

/-- writeFileJsdoc: filter the supported statements, iterate them bottom up
(to avoid shifting the start offsets of nodes not yet processed), and
return the number of JSDocs written, also when cancelled. -/
def writeFileJsdocG (cancelAt : Option Nat) (statements : List GStatement)
    (s : GenSt) : Nat × GenSt :=
  let sts := (statements.filter (fun st => isNodeSupported st.kind)).reverse
  let r := processStatementsG cancelAt sts 0 s
  (r.1, r.2.1)

/-- One file of a folder or workspace run. -/
structure GFile : Type where
  langSupported : Bool
  hasSource : Bool
  statements : List GStatement
deriving DecidableEq, Repr

/-- The per-file loop of generateJsdocWorkspace: cancellation check, await
of the document (one tick), cancellation check, file work for supported
documents, cancellation check, progress report. -/
def wsLoopG (cancelAt : Option Nat) :
    List GFile → Nat → GenSt → Nat × GenSt × Bool
  | [], n, s => (n, s, false)
  | f :: rest, n, s =>
    if isCancelRequested cancelAt s.clock then (n, s, true)
    else
      let s1 := tick s
      if isCancelRequested cancelAt s1.clock then (n, s1, true)
      else
        if f.langSupported then
          if f.hasSource then
            let r := writeFileJsdocG cancelAt f.statements s1
            let n1 := n + r.1
            if isCancelRequested cancelAt r.2.clock then (n1, r.2, true)
            else wsLoopG cancelAt rest n1 r.2
          else wsLoopG cancelAt rest n s1
        else wsLoopG cancelAt rest n s1

/-- The outcome of a folder or workspace run: whether the batched edit was
applied, the accumulated expected count, the accumulated edits, and the
clock instant of the final pre-apply cancellation check when it was
reached. -/
structure WsResult : Type where
  applied : Bool
  count : Nat
  edits : List (Nat × Nat)
  applyCheckClock : Option Nat
deriving DecidableEq, Repr

/-- generateJsdocWorkspace: await findFiles (one tick), cancellation check,
per-file loop accumulating into the single workspace edit, final
cancellation check, then — only then — the batch apply. Every early return
leaves the batch unapplied. -/
def generateJsdocWorkspaceG (cancelAt : Option Nat) (files : List GFile) :
    WsResult :=
  let s1 := tick { clock := 0, edits := [] }
  if isCancelRequested cancelAt s1.clock then
    { applied := false, count := 0, edits := s1.edits, applyCheckClock := none }
  else if 0 < files.length then
    let r := wsLoopG cancelAt files 0 s1
    if r.2.2 then
      { applied := false, count := r.1, edits := r.2.1.edits, applyCheckClock := none }
    else if isCancelRequested cancelAt r.2.1.clock then
      { applied := false, count := r.1, edits := r.2.1.edits,
        applyCheckClock := some r.2.1.clock }
    else
      { applied := true, count := r.1, edits := r.2.1.edits,
        applyCheckClock := some r.2.1.clock }
  else
    { applied := false, count := 0, edits := s1.edits, applyCheckClock := none }

/-- The start offsets of the nodes writeFileJsdoc targets, in source order:
each supported statement followed by its members when it is class-like. -/
def flattenTargets (statements : List GStatement) : List Nat :=
  ((statements.filter (fun st => isNodeSupported st.kind)).map
    (fun st =>
      st.gstart ::
        (if isClassLikeStmt st.kind then st.members.map GMember.gstart else []))).flatten

/-- The start offsets of the nodes writeFileJsdoc actually writes (those
without a JSDoc), in source order. -/
def pendingTargets (statements : List GStatement) : List Nat :=
  ((statements.filter (fun st => isNodeSupported st.kind)).map
    (fun st =>
      (if st.ghasJsdoc then [] else [st.gstart]) ++
        (if isClassLikeStmt st.kind then
          (st.members.filter (fun m => !m.ghasJsdoc)).map GMember.gstart
        else []))).flatten

/-- The start offsets the statement loop inserts at, for a statement list
taken in the order it is handed to the loop (already reversed): for each
supported statement, its members from last to first when it is class-like,
then the statement itself, keeping only nodes without a JSDoc. -/
def processedFileOrder (sts : List GStatement) : List Nat :=
  (sts.map (fun st =>
    if isNodeSupported st.kind then
      (if isClassLikeStmt st.kind then
        (st.members.reverse.filter (fun m => !m.ghasJsdoc)).map GMember.gstart
      else []) ++ (if st.ghasJsdoc then [] else [st.gstart])
    else [])).flatten

/-! ### Spec-modelled definitions

The custom-tag kind whitelist and the destructured-parameter expansion are
features of this repository whose implementing builder revision is not part
of the sources at hand (the configuration schema in the package manifest
declares the whitelist, and the changelog records both features); they are
modelled here from the specification text. -/

/-- The DeclarationKind values a custom-tag whitelist may name, as the
configuration schema enumerates them. -/
inductive DeclKind : Type
  | functionKind
  | classKind
  | interfaceKind
  | typeKind
  | enumKind
  | propertyKind
  | accessorKind
  | constructorKind
deriving DecidableEq, Repr

/-- A custom tag with its optional kind whitelist: an empty or unset list
means the tag applies to all node types. -/
structure CustomTagW : Type where
  tag : String
  placeholder : String
  whitelist : List DeclKind
deriving DecidableEq, Repr

/-- A custom-tag value: always an editable placeholder region. -/
inductive TagValueW : Type
  | placeholderRegion : String → TagValueW
deriving DecidableEq, Repr

/-- Modelled from the spec: the custom-tag stage with kind whitelists, which
the builder revision at hand predates. Each user-configured tag is emitted
only if its optional kind whitelist includes the current declaration kind
(an empty whitelist admits every kind), and its value is always a
placeholder region regardless of static or generative mode. -/
def buildCustomTagsW (tags : List CustomTagW) (kind : DeclKind) :
    List (String × TagValueW) :=
  tags.filterMap (fun t =>
    if t.tag ≠ "" ∧ (t.whitelist = [] ∨ kind ∈ t.whitelist) then
      some (t.tag, TagValueW.placeholderRegion t.placeholder)
    else none)

/-- A parameter name as declared: a plain identifier or an object or array
binding pattern with its elements (each an identifier with an optional
default). -/
inductive ParamNameW : Type
  | ident : String → ParamNameW
  | binding : List (String × Option String) → ParamNameW
deriving DecidableEq, Repr

/-- Modelled from the spec: the rendered name of one destructured element of
the parameter at the given index: the dotted name, bracketed
with its default if any. -/
def bindingElementName (idx : Nat) (e : String × Option String) : String :=
  match e.2 with
  | some d => "[param" ++ toString idx ++ "." ++ e.1 ++ "=" ++ d ++ "]"
  | none => "param" ++ toString idx ++ "." ++ e.1

/-- Modelled from the spec: the destructured-parameter expansion, which the
builder revision at hand predates. A destructured (object or array binding)
parameter at index idx is rendered as one synthetic line named
sequentially, plus one additional line per destructured element, named with
the dotted form and bracketed with its default if any, preserving
declaration order; a plain parameter stays a single line. -/
def expandParameterName (idx : Nat) (p : ParamNameW) : List String :=
  match p with
  | .ident nm => [nm]
  | .binding elems =>
    ("param" ++ toString idx) :: elems.map (bindingElementName idx)

/-- Modelled from the spec: the param-line names of a full parameter list,
in declaration order. -/
def expandParameterNames (ps : List ParamNameW) : List String :=
  (ps.enum.map (fun p => expandParameterName p.1 p.2)).flatten

/-! ### Observation helpers and concrete fixtures used by the theorems -/

/-- The tag of a line, when the line is a tag line. -/
def lineTag : JLine → Option String
  | .tagLine tag _ _ _ => some tag
  | _ => none

/-- The tag name of the line a modifier contributes, none for unhandled
modifiers. -/
def modTagName : ModifierKind → Option String
  | .exportKw => some "export"
  | .privateKw => some "private"
  | .protectedKw => some "protected"
  | .publicKw => some "public"
  | .staticKw => some "static"
  | .abstractKw => some "abstract"
  | .asyncKw => some "async"
  | .readonlyKw => some "readonly"
  | .overrideKw => some "override"
  | .otherKw => none

/-- A configuration with types and the parenthesization policy enabled and
everything optional turned off. -/
def cfgOn : Config :=
  { includeTypes := true, includeParenthesisForMultipleTypes := true,
    includeExport := true, includeAsync := true, includeDate := false,
    includeTime := false, descriptionPlaceholder := "", author := "",
    dateText := "", timeText := "", customTags := [] }

/-- The same configuration with the parenthesization policy disabled. -/
def cfgOff : Config :=
  { cfgOn with includeParenthesisForMultipleTypes := false }

/-- A rest parameter of the union type A|B. -/
def restParamAB : NodeM :=
  { kind := SynKind.parameter, name := "xs", type := some "A|B", inferred := "",
    questionToken := false, exclamationToken := false, dotDotDotToken := true,
    asteriskToken := false, initText := none, modifiers := [] }

/-- A plain (non-rest, non-optional) parameter of the union type A|B. -/
def plainParamAB : NodeM :=
  { kind := SynKind.parameter, name := "x", type := some "A|B", inferred := "",
    questionToken := false, exclamationToken := false, dotDotDotToken := false,
    asteriskToken := false, initText := none, modifiers := [] }

/-- A get accessor node named value with an annotated number type. -/
def getterValue : NodeM :=
  { kind := SynKind.getAccessor, name := "value", type := some "number",
    inferred := "", questionToken := false, exclamationToken := false,
    dotDotDotToken := false, asteriskToken := false, initText := none,
    modifiers := [ModifierKind.publicKw] }

/-- A set accessor node named value with an annotated number type. -/
def setterValue : NodeM :=
  { kind := SynKind.setAccessor, name := "value", type := some "number",
    inferred := "", questionToken := false, exclamationToken := false,
    dotDotDotToken := false, asteriskToken := false, initText := none,
    modifiers := [ModifierKind.publicKw] }

/-- A method node with the given annotated return type and no parameters. -/
def methodWithReturn (rt : String) : MethodNode :=
  { node :=
    { kind := SynKind.methodDeclaration, name := "m", type := some rt,
      inferred := "", questionToken := false, exclamationToken := false,
      dotDotDotToken := false, asteriskToken := false, initText := none,
      modifiers := [] },
    typeParameters := none, parameters := [] }

/-- A sample file for the generator theorems: one documented function, one
class with one documented and one undocumented member. -/
def sampleStatements : List GStatement :=
  [{ kind := SynKind.functionDeclaration, gstart := 0, ghasJsdoc := false,
     members := [] },
   { kind := SynKind.classDeclaration, gstart := 40, ghasJsdoc := false,
     members := [{ gstart := 55, ghasJsdoc := true }, { gstart := 70, ghasJsdoc := false }] }]

/-- A fully documented file: every supported node already has a JSDoc. -/
def documentedStatements : List GStatement :=
  [{ kind := SynKind.functionDeclaration, gstart := 0, ghasJsdoc := true,
     members := [] },
   { kind := SynKind.classDeclaration, gstart := 40, ghasJsdoc := true,
     members := [{ gstart := 55, ghasJsdoc := true }, { gstart := 70, ghasJsdoc := true }]}]

/-- A one-file workspace around sampleStatements. -/
def sampleFiles : List GFile :=
  [{ langSupported := true, hasSource := true, statements := sampleStatements }]

/-- A custom tag whose whitelist admits only classes. -/
def remarksTag : CustomTagW :=
  { tag := "remarks", placeholder := "note", whitelist := [DeclKind.classKind] }

/-! ## Theorems

First a collection of helper lemmas about the builder stages, then one
theorem per claim (with its witness where the theorem carries hypotheses). -/

theorem buildJsdocLine_eq (j : List JLine) (t v w e : String) :
    buildJsdocLine j t v w e = j ++ [JLine.tagLine t v w e] := rfl

theorem foldl_customTags_append (ts : List CustomTag) (j₁ j₂ : List JLine) :
    ts.foldl
      (fun acc t => if t.tag ≠ "" then buildJsdocLine acc t.tag t.placeholder "" "" else acc)
      (j₁ ++ j₂)
      = j₁ ++ ts.foldl
          (fun acc t =>
            if t.tag ≠ "" then buildJsdocLine acc t.tag t.placeholder "" "" else acc)
          j₂ := by
  induction ts generalizing j₂ with
  | nil => rfl
  | cons t ts ih =>
    simp only [List.foldl_cons]
    by_cases h : t.tag = ""
    · rw [if_neg (by simp [h]), if_neg (by simp [h])]
      exact ih j₂
    · rw [if_pos h, if_pos h, buildJsdocLine_eq, buildJsdocLine_eq, List.append_assoc]
      exact ih (j₂ ++ [JLine.tagLine t.tag t.placeholder "" ""])

theorem buildCustomTags_append (cfg : Config) (j : List JLine) :
    buildCustomTags cfg j = j ++ buildCustomTags cfg [] := by
  unfold buildCustomTags
  have h := foldl_customTags_append cfg.customTags j []
  simpa using h

theorem mem_foldl_customTags (ts : List CustomTag) (j : List JLine) (l : JLine)
    (h : l ∈ ts.foldl
      (fun acc t => if t.tag ≠ "" then buildJsdocLine acc t.tag t.placeholder "" "" else acc)
      j) :
    l ∈ j ∨ ∃ ct ∈ ts, ct.tag ≠ "" ∧ l = JLine.tagLine ct.tag ct.placeholder "" "" := by
  induction ts generalizing j with
  | nil => exact Or.inl h
  | cons t ts ih =>
    simp only [List.foldl_cons] at h
    by_cases ht : t.tag = ""
    · rw [if_neg (by simp [ht])] at h
      rcases ih _ h with h1 | ⟨ct, hct, hne, hl⟩
      · exact Or.inl h1
      · exact Or.inr ⟨ct, List.mem_cons_of_mem _ hct, hne, hl⟩
    · rw [if_pos ht, buildJsdocLine_eq] at h
      rcases ih _ h with h1 | ⟨ct, hct, hne, hl⟩
      · rcases List.mem_append.1 h1 with h2 | h2
        · exact Or.inl h2
        · rcases List.mem_singleton.1 h2 with rfl
          exact Or.inr ⟨t, List.mem_cons_self _ _, ht, rfl⟩
      · exact Or.inr ⟨ct, List.mem_cons_of_mem _ hct, hne, hl⟩

theorem mem_buildCustomTags (cfg : Config) (j : List JLine) (l : JLine)
    (h : l ∈ buildCustomTags cfg j) :
    l ∈ j ∨ ∃ ct ∈ cfg.customTags, ct.tag ≠ "" ∧
      l = JLine.tagLine ct.tag ct.placeholder "" "" :=
  mem_foldl_customTags cfg.customTags j l h

theorem buildCustomTags_not_blank (cfg : Config) (l : JLine)
    (h : l ∈ buildCustomTags cfg []) : isBlankLine l = false := by
  rcases mem_buildCustomTags cfg [] l h with h1 | ⟨ct, _, hne, rfl⟩
  · simp at h1
  · simpa [isBlankLine] using hne


theorem lastIsBlank_concat (ys : List JLine) (a : JLine) :
    lastIsBlank (ys ++ [a]) = isBlankLine a := by
  simp [lastIsBlank, List.getLast?_concat]

theorem trimTrailingBlank_sublist (j : List JLine) :
    List.Sublist (trimTrailingBlank j) j := by
  unfold trimTrailingBlank
  split
  · exact List.dropLast_sublist j
  · exact List.Sublist.refl j

theorem trimHeaderBlank_sublist (j : List JLine) :
    List.Sublist (trimHeaderBlank j) j := by
  unfold trimHeaderBlank
  split
  · split
    · exact List.Sublist.cons₂ _ (List.Sublist.cons _ (List.Sublist.refl _))
    · exact List.Sublist.refl _
  · exact List.Sublist.refl _

theorem mem_trimTrailingBlank_of_mem (j : List JLine) (l : JLine)
    (h : l ∈ j) (hb : isBlankLine l = false) : l ∈ trimTrailingBlank j := by
  rcases List.eq_nil_or_concat j with rfl | ⟨ys, a, rfl⟩
  · simp at h
  · rw [List.concat_eq_append] at h ⊢
    unfold trimTrailingBlank
    split
    · rename_i hcond
      rw [List.dropLast_concat]
      rcases List.mem_append.1 h with h1 | h1
      · exact h1
      · exfalso
        rcases List.mem_singleton.1 h1 with rfl
        rw [lastIsBlank_concat] at hcond
        rw [hcond.1] at hb
        simp at hb
    · exact h

theorem mem_trimHeaderBlank_of_mem (j : List JLine) (l : JLine)
    (h : l ∈ j) (hb : isBlankLine l = false) : l ∈ trimHeaderBlank j := by
  unfold trimHeaderBlank
  split
  · rename_i b rest
    split
    · rename_i hcond
      rcases List.mem_cons.1 h with h1 | h1
      · rw [h1]
        exact List.mem_cons_self _ _
      · rcases List.mem_cons.1 h1 with h2 | h2
        · exfalso
          rw [h2] at hb
          rw [hcond.1] at hb
          simp at hb
        · exact List.mem_cons_of_mem _ h2
    · exact h
  · exact h

theorem mem_buildJsdocEnd (j : List JLine) (l : JLine)
    (h : l ∈ buildJsdocEnd j) : l ∈ j ∨ l = JLine.closer := by
  unfold buildJsdocEnd at h
  rcases List.mem_append.1 h with h1 | h1
  · exact Or.inl (((trimHeaderBlank_sublist _).trans (trimTrailingBlank_sublist j)).subset h1)
  · exact Or.inr (List.mem_singleton.1 h1)

theorem mem_buildJsdocEnd_of_mem (j : List JLine) (l : JLine)
    (h : l ∈ j) (hb : isBlankLine l = false) : l ∈ buildJsdocEnd j := by
  unfold buildJsdocEnd
  exact List.mem_append.2 (Or.inl
    (mem_trimHeaderBlank_of_mem _ _ (mem_trimTrailingBlank_of_mem _ _ h hb) hb))

theorem mem_buildDescription (cfg : Config) (j : List JLine) (d : String) (l : JLine)
    (h : l ∈ buildDescription cfg j d) : l ∈ j ∨ lineTag l = none := by
  unfold buildDescription at h
  rcases List.mem_append.1 h with h1 | h1
  · exact Or.inl h1
  · rcases List.mem_singleton.1 h1 with rfl
    exact Or.inr rfl

theorem mem_buildAuthor (cfg : Config) (j : List JLine) (l : JLine)
    (h : l ∈ buildAuthor cfg j) :
    l ∈ j ∨ lineTag l = none ∨ lineTag l = some "author" := by
  unfold buildAuthor at h
  split at h
  · split at h
    · rcases List.mem_append.1 h with h1 | h1
      · exact Or.inl h1
      · rcases List.mem_singleton.1 h1 with rfl
        exact Or.inr (Or.inl rfl)
    · rw [buildJsdocLine_eq] at h
      rcases List.mem_append.1 h with h1 | h1
      · exact Or.inl h1
      · rcases List.mem_singleton.1 h1 with rfl
        exact Or.inr (Or.inr rfl)
  · exact Or.inl h

theorem mem_buildDate (cfg : Config) (j : List JLine) (l : JLine)
    (h : l ∈ buildDate cfg j) : l ∈ j ∨ lineTag l = some "date" := by
  unfold buildDate at h
  split at h
  · rw [buildJsdocLine_eq] at h
    rcases List.mem_append.1 h with h1 | h1
    · exact Or.inl h1
    · rcases List.mem_singleton.1 h1 with rfl
      exact Or.inr rfl
  · exact Or.inl h

theorem mem_buildJsdocHeader (cfg : Config) (j : List JLine) (l : JLine)
    (h : l ∈ buildJsdocHeader cfg j) :
    l ∈ j ∨ lineTag l = none ∨ lineTag l = some "date" ∨
      lineTag l = some "author" ∨ lineTag l = some "" := by
  unfold buildJsdocHeader at h
  rw [buildJsdocLine_eq] at h
  rcases List.mem_append.1 h with h1 | h1
  · rcases mem_buildAuthor cfg _ l h1 with h2 | h2 | h2
    · rcases mem_buildDate cfg _ l h2 with h3 | h3
      · rcases mem_buildDescription cfg _ _ l h3 with h4 | h4
        · rcases List.mem_append.1 h4 with h5 | h5
          · exact Or.inl h5
          · rcases List.mem_singleton.1 h5 with rfl
            exact Or.inr (Or.inl rfl)
        · exact Or.inr (Or.inl h4)
      · exact Or.inr (Or.inr (Or.inl h3))
    · exact Or.inr (Or.inl h2)
    · exact Or.inr (Or.inr (Or.inr (Or.inl h2)))
  · rcases List.mem_singleton.1 h1 with rfl
    exact Or.inr (Or.inr (Or.inr (Or.inr rfl)))

theorem mem_buildJsdocModifiers (cfg : Config) (mods : List ModifierKind)
    (j : List JLine) (l : JLine) (h : l ∈ buildJsdocModifiers cfg j mods) :
    l ∈ j ∨ ∃ m ∈ mods, ∃ tg, modTagName m = some tg ∧
      l = JLine.tagLine tg "" "\x7b\x7d" "" := by
  induction mods generalizing j with
  | nil => exact Or.inl h
  | cons m ms ih =>
    unfold buildJsdocModifiers at h
    rw [List.foldl_cons] at h
    rcases ih _ h with h1 | ⟨m', hm', tg, htg, hl⟩
    · revert h1
      cases m <;> intro h1
      case exportKw =>
        by_cases hc : cfg.includeExport = true
        · rw [if_pos hc, buildJsdocLine_eq] at h1
          rcases List.mem_append.1 h1 with h2 | h2
          · exact Or.inl h2
          · rcases List.mem_singleton.1 h2 with rfl
            exact Or.inr ⟨ModifierKind.exportKw, List.mem_cons_self _ _, "export", rfl, rfl⟩
        · rw [if_neg hc] at h1
          exact Or.inl h1
      case asyncKw =>
        by_cases hc : cfg.includeAsync = true
        · rw [if_pos hc, buildJsdocLine_eq] at h1
          rcases List.mem_append.1 h1 with h2 | h2
          · exact Or.inl h2
          · rcases List.mem_singleton.1 h2 with rfl
            exact Or.inr ⟨ModifierKind.asyncKw, List.mem_cons_self _ _, "async", rfl, rfl⟩
        · rw [if_neg hc] at h1
          exact Or.inl h1
      case otherKw => exact Or.inl h1
      case privateKw =>
        rw [buildJsdocLine_eq] at h1
        rcases List.mem_append.1 h1 with h2 | h2
        · exact Or.inl h2
        · rcases List.mem_singleton.1 h2 with rfl
          exact Or.inr ⟨ModifierKind.privateKw, List.mem_cons_self _ _, "private", rfl, rfl⟩
      case protectedKw =>
        rw [buildJsdocLine_eq] at h1
        rcases List.mem_append.1 h1 with h2 | h2
        · exact Or.inl h2
        · rcases List.mem_singleton.1 h2 with rfl
          exact Or.inr ⟨ModifierKind.protectedKw, List.mem_cons_self _ _, "protected", rfl, rfl⟩
      case publicKw =>
        rw [buildJsdocLine_eq] at h1
        rcases List.mem_append.1 h1 with h2 | h2
        · exact Or.inl h2
        · rcases List.mem_singleton.1 h2 with rfl
          exact Or.inr ⟨ModifierKind.publicKw, List.mem_cons_self _ _, "public", rfl, rfl⟩
      case staticKw =>
        rw [buildJsdocLine_eq] at h1
        rcases List.mem_append.1 h1 with h2 | h2
        · exact Or.inl h2
        · rcases List.mem_singleton.1 h2 with rfl
          exact Or.inr ⟨ModifierKind.staticKw, List.mem_cons_self _ _, "static", rfl, rfl⟩
      case abstractKw =>
        rw [buildJsdocLine_eq] at h1
        rcases List.mem_append.1 h1 with h2 | h2
        · exact Or.inl h2
        · rcases List.mem_singleton.1 h2 with rfl
          exact Or.inr ⟨ModifierKind.abstractKw, List.mem_cons_self _ _, "abstract", rfl, rfl⟩
      case readonlyKw =>
        rw [buildJsdocLine_eq] at h1
        rcases List.mem_append.1 h1 with h2 | h2
        · exact Or.inl h2
        · rcases List.mem_singleton.1 h2 with rfl
          exact Or.inr ⟨ModifierKind.readonlyKw, List.mem_cons_self _ _, "readonly", rfl, rfl⟩
      case overrideKw =>
        rw [buildJsdocLine_eq] at h1
        rcases List.mem_append.1 h1 with h2 | h2
        · exact Or.inl h2
        · rcases List.mem_singleton.1 h2 with rfl
          exact Or.inr ⟨ModifierKind.overrideKw, List.mem_cons_self _ _, "override", rfl, rfl⟩
    · exact Or.inr ⟨m', List.mem_cons_of_mem _ hm', tg, htg, hl⟩

theorem mem_foldl_lines (tag wrapper : String) (extraValues : List String)
    (ps : List (Nat × String)) (j : List JLine) (l : JLine)
    (h : l ∈ ps.foldl
      (fun acc p => buildJsdocLine acc tag p.2 wrapper (extraValues.getD p.1 "")) j) :
    l ∈ j ∨ lineTag l = some tag := by
  induction ps generalizing j with
  | nil => exact Or.inl h
  | cons p ps ih =>
    rw [List.foldl_cons, buildJsdocLine_eq] at h
    rcases ih _ h with h1 | h1
    · rcases List.mem_append.1 h1 with h2 | h2
      · exact Or.inl h2
      · rcases List.mem_singleton.1 h2 with rfl
        exact Or.inr rfl
    · exact Or.inr h1

theorem mem_buildJsdocLines (j : List JLine) (tag : String) (tagValues : List String)
    (wrapper : String) (extraValues : List String) (l : JLine)
    (h : l ∈ buildJsdocLines j tag tagValues wrapper extraValues) :
    l ∈ j ∨ lineTag l = some tag := by
  unfold buildJsdocLines at h
  exact mem_foldl_lines tag wrapper extraValues _ j l h

theorem mem_buildTypeParameters (j : List JLine) (tps : Option (List String)) (l : JLine)
    (h : l ∈ buildTypeParameters j tps) : l ∈ j ∨ lineTag l = some "template" := by
  unfold buildTypeParameters at h
  rcases tps with _ | tl
  · exact Or.inl h
  · exact mem_buildJsdocLines j "template" tl "" [] l h

theorem mem_buildJsdocParameters (cfg : Config) (j : List JLine)
    (parameters : List NodeM) (l : JLine) (h : l ∈ buildJsdocParameters cfg j parameters) :
    l ∈ j ∨ lineTag l = some "param" := by
  unfold buildJsdocParameters at h
  exact mem_buildJsdocLines j "param" _ _ _ l h

theorem buildJsdocReturn_eq (cfg : Config) (j : List JLine) (m : MethodNode) :
    buildJsdocReturn cfg j m =
      if resolvedReturnType m ≠ "void" then
        j ++ [JLine.tagLine "returns"
          (if cfg.includeTypes then
            (if checkParenthesisUse cfg (resolvedReturnType m) "" then
              "(" ++ resolvedReturnType m ++ ")"
            else resolvedReturnType m)
          else "") "\x7b\x7d" ""]
      else j := rfl

theorem mem_buildJsdocReturn (cfg : Config) (j : List JLine) (m : MethodNode) (l : JLine)
    (h : l ∈ buildJsdocReturn cfg j m) : l ∈ j ∨ lineTag l = some "returns" := by
  rw [buildJsdocReturn_eq] at h
  by_cases hv : resolvedReturnType m ≠ "void"
  · rw [if_pos hv] at h
    rcases List.mem_append.1 h with h1 | h1
    · exact Or.inl h1
    · rcases List.mem_singleton.1 h1 with rfl
      exact Or.inr rfl
  · rw [if_neg hv] at h
    exact Or.inl h

theorem modTagName_ne_returns (m : ModifierKind) : modTagName m ≠ some "returns" := by
  cases m <;> simp [modTagName]

theorem modTagName_ne_type (m : ModifierKind) : modTagName m ≠ some "type" := by
  cases m <;> simp [modTagName]

theorem modTagName_eq_readonly (m : ModifierKind)
    (h : modTagName m = some "readonly") : m = ModifierKind.readonlyKw := by
  cases m <;> simp_all [modTagName]

theorem retrieveType_eq (cfg : Config) (n : NodeM) (h : cfg.includeTypes = true) :
    retrieveType cfg n =
      getTypePfx n ++
        (if checkParenthesisUse cfg (canonicalTypeText n) (getTypePfx n) then
          "(" ++ canonicalTypeText n ++ ")"
        else canonicalTypeText n) := by
  simp only [retrieveType, h, if_true]
  rfl

/-- C1: for every typed node rendered with includeTypes enabled, the type
string is wrapped in parentheses exactly when the rendered type text is
compound (matches the union/intersection pattern) and either the
includeParenthesisForMultipleTypes policy is enabled or the modifier prefix
is non-empty; a non-compound type text is never wrapped, whatever the
prefix and the policy. -/
theorem claim1_type_paren_matrix (cfg : Config) (n : NodeM)
    (h : cfg.includeTypes = true) :
    retrieveType cfg n =
      getTypePfx n ++
        (if isCompoundType (canonicalTypeText n) = true ∧
            (cfg.includeParenthesisForMultipleTypes = true ∨ getTypePfx n ≠ "") then
          "(" ++ canonicalTypeText n ++ ")"
        else canonicalTypeText n) ∧
    (isCompoundType (canonicalTypeText n) = false →
      retrieveType cfg n = getTypePfx n ++ canonicalTypeText n) := by
  have he := retrieveType_eq cfg n h
  constructor
  · rw [he]
    congr 1
    have hiff : (checkParenthesisUse cfg (canonicalTypeText n) (getTypePfx n) = true) ↔
        (isCompoundType (canonicalTypeText n) = true ∧
          (cfg.includeParenthesisForMultipleTypes = true ∨ getTypePfx n ≠ "")) := by
      unfold checkParenthesisUse
      simp [Bool.and_eq_true, Bool.or_eq_true, bne_iff_ne]
    exact if_congr hiff rfl rfl
  · intro hf
    have h0 : checkParenthesisUse cfg (canonicalTypeText n) (getTypePfx n) = false := by
      unfold checkParenthesisUse
      rw [hf]
      simp
    rw [he, h0]
    simp

theorem claim1_witness :
    cfgOn.includeTypes = true ∧
    (retrieveType cfgOn restParamAB =
      getTypePfx restParamAB ++
        (if isCompoundType (canonicalTypeText restParamAB) = true ∧
            (cfgOn.includeParenthesisForMultipleTypes = true ∨
              getTypePfx restParamAB ≠ "") then
          "(" ++ canonicalTypeText restParamAB ++ ")"
        else canonicalTypeText restParamAB) ∧
      (isCompoundType (canonicalTypeText restParamAB) = false →
        retrieveType cfgOn restParamAB =
          getTypePfx restParamAB ++ canonicalTypeText restParamAB)) :=
  ⟨rfl, claim1_type_paren_matrix cfgOn restParamAB rfl⟩

/-- C2 (counterexample): with the includeParenthesisForMultipleTypes policy
disabled, the rest parameter xs of union type A|B still renders with
parentheses (the non-empty rest prefix forces them) and with the dots
inside the braces: the param line value is \x7b...(A|B)\x7d, not the
...\x7bA|B\x7d the claim states. -/
theorem claim2_counterexample :
    buildJsdocParameters cfgOff [] [restParamAB]
      = [JLine.tagLine "param" "...(A|B)" "\x7b\x7d" "xs"] ∧
    renderLine (JLine.tagLine "param" "...(A|B)" "\x7b\x7d" "xs")
      = " * @param \x7b...(A|B)\x7d xs\n" ∧
    renderLine (JLine.tagLine "param" "...(A|B)" "\x7b\x7d" "xs")
      ≠ " * @param ...\x7bA|B\x7d xs\n" := by
  refine ⟨by decide, by decide, by decide⟩

/-- C2 (amended): for every rest parameter whose type text is compound, the
param line value renders as \x7b...(TYPE)\x7d whether the policy is enabled
or not, because the non-empty rest prefix forces the parentheses; for every
non-rest, non-optional parameter of compound type, the value renders
wrapped, as \x7b(TYPE)\x7d, exactly when the policy is enabled. -/
theorem claim2_amended (cfg : Config) (t nm : String)
    (hty : cfg.includeTypes = true) (hc : isCompoundType t = true) :
    buildJsdocParameters cfg []
      [{ kind := SynKind.parameter, name := nm, type := some t, inferred := "",
         questionToken := false, exclamationToken := false, dotDotDotToken := true,
         asteriskToken := false, initText := none, modifiers := [] }]
      = [JLine.tagLine "param" ("...(" ++ t ++ ")") "\x7b\x7d" nm] ∧
    buildJsdocParameters cfg []
      [{ kind := SynKind.parameter, name := nm, type := some t, inferred := "",
         questionToken := false, exclamationToken := false, dotDotDotToken := false,
         asteriskToken := false, initText := none, modifiers := [] }]
      = [JLine.tagLine "param"
          (if cfg.includeParenthesisForMultipleTypes = true then "(" ++ t ++ ")" else t)
          "\x7b\x7d" nm] := by
  have hta : t ≠ "any" := by
    rintro rfl
    rw [show isCompoundType "any" = false from by decide] at hc
    cases hc
  constructor
  · simp only [buildJsdocParameters, buildJsdocLines, List.map_cons, List.map_nil,
      List.enum, buildJsdocLine_eq]
    simp [retrieveType, hty, getTypePfx, canonicalTypeText, checkParenthesisUse, hc, hta]
    rw [← String.append_assoc, ← String.append_assoc]
    rfl
  · simp only [buildJsdocParameters, buildJsdocLines, List.map_cons, List.map_nil,
      List.enum, buildJsdocLine_eq]
    by_cases hp : cfg.includeParenthesisForMultipleTypes = true
    · simp [retrieveType, hty, getTypePfx, canonicalTypeText, checkParenthesisUse, hc,
        hta, hp]
    · simp [retrieveType, hty, getTypePfx, canonicalTypeText, checkParenthesisUse, hc,
        hta, hp]

theorem claim2_witness :
    cfgOff.includeTypes = true ∧ isCompoundType "A|B" = true ∧
    (buildJsdocParameters cfgOff []
      [{ kind := SynKind.parameter, name := "xs", type := some "A|B", inferred := "",
         questionToken := false, exclamationToken := false, dotDotDotToken := true,
         asteriskToken := false, initText := none, modifiers := [] }]
      = [JLine.tagLine "param" ("...(" ++ "A|B" ++ ")") "\x7b\x7d" "xs"] ∧
    buildJsdocParameters cfgOff []
      [{ kind := SynKind.parameter, name := "xs", type := some "A|B", inferred := "",
         questionToken := false, exclamationToken := false, dotDotDotToken := false,
         asteriskToken := false, initText := none, modifiers := [] }]
      = [JLine.tagLine "param"
          (if cfgOff.includeParenthesisForMultipleTypes = true then
            "(" ++ "A|B" ++ ")"
          else "A|B")
          "\x7b\x7d" "xs"]) :=
  ⟨rfl, by decide, claim2_amended cfgOff "A|B" "xs" rfl (by decide)⟩

/-- C3: a method whose resolved return type is the no-value type void gets
no returns line from the builder, and a method with any other resolved
return type gets exactly one returns line, whose type text passes through
the same compound-type parenthesization rule as other types (here with the
empty prefix, so wrapping happens exactly when the policy is enabled);
consequently the whole generated method JSDoc carries a returns tag line
exactly in the non-void case (granted no custom tag is itself named
returns). -/
theorem claim3_return_suppression (cfg : Config) (m : MethodNode)
    (hct : ∀ t ∈ cfg.customTags, t.tag ≠ "returns") :
    (∀ j, resolvedReturnType m = "void" → buildJsdocReturn cfg j m = j) ∧
    (∀ j, resolvedReturnType m ≠ "void" →
      buildJsdocReturn cfg j m = j ++ [JLine.tagLine "returns"
        (if cfg.includeTypes then
          (if isCompoundType (resolvedReturnType m) = true ∧
              cfg.includeParenthesisForMultipleTypes = true then
            "(" ++ resolvedReturnType m ++ ")"
          else resolvedReturnType m)
        else "") "\x7b\x7d" ""]) ∧
    (resolvedReturnType m ≠ "void" →
      ∃ v, JLine.tagLine "returns" v "\x7b\x7d" "" ∈ getMethodDeclarationJsdoc cfg m) ∧
    (resolvedReturnType m = "void" →
      ∀ l ∈ getMethodDeclarationJsdoc cfg m, lineTag l ≠ some "returns") := by
  have hwrap : (checkParenthesisUse cfg (resolvedReturnType m) "" = true) ↔
      (isCompoundType (resolvedReturnType m) = true ∧
        cfg.includeParenthesisForMultipleTypes = true) := by
    unfold checkParenthesisUse
    simp
  have hb : ∀ j, resolvedReturnType m ≠ "void" →
      buildJsdocReturn cfg j m = j ++ [JLine.tagLine "returns"
        (if cfg.includeTypes then
          (if isCompoundType (resolvedReturnType m) = true ∧
              cfg.includeParenthesisForMultipleTypes = true then
            "(" ++ resolvedReturnType m ++ ")"
          else resolvedReturnType m)
        else "") "\x7b\x7d" ""] := by
    intro j hv
    rw [buildJsdocReturn_eq, if_pos hv]
    have hval : (if cfg.includeTypes then
        (if checkParenthesisUse cfg (resolvedReturnType m) "" then
          "(" ++ resolvedReturnType m ++ ")"
        else resolvedReturnType m)
      else "") = (if cfg.includeTypes then
        (if isCompoundType (resolvedReturnType m) = true ∧
            cfg.includeParenthesisForMultipleTypes = true then
          "(" ++ resolvedReturnType m ++ ")"
        else resolvedReturnType m)
      else "") := by
      by_cases hty : cfg.includeTypes = true
      · rw [if_pos hty, if_pos hty]
        exact if_congr hwrap rfl rfl
      · rw [if_neg hty, if_neg hty]
    rw [hval]
  have ha : ∀ j, resolvedReturnType m = "void" → buildJsdocReturn cfg j m = j := by
    intro j hv
    rw [buildJsdocReturn_eq, if_neg (by simpa using hv)]
  refine ⟨ha, hb, ?_, ?_⟩
  · intro hv
    refine ⟨(if cfg.includeTypes then
        (if isCompoundType (resolvedReturnType m) = true ∧
            cfg.includeParenthesisForMultipleTypes = true then
          "(" ++ resolvedReturnType m ++ ")"
        else resolvedReturnType m)
      else ""), ?_⟩
    unfold getMethodDeclarationJsdoc
    apply mem_buildJsdocEnd_of_mem
    · rw [buildCustomTags_append]
      apply List.mem_append.2
      left
      rw [hb _ hv]
      exact List.mem_append.2 (Or.inr (List.mem_singleton.2 rfl))
    · simp [isBlankLine]
  · intro hv l hl
    unfold getMethodDeclarationJsdoc at hl
    rcases mem_buildJsdocEnd _ _ hl with h1 | rfl
    · rcases mem_buildCustomTags cfg _ l h1 with h2 | ⟨ct, hctm, hcne, rfl⟩
      · rw [ha _ hv] at h2
        rcases mem_buildJsdocParameters cfg _ _ l h2 with h3 | h3
        · rcases mem_buildTypeParameters _ _ l h3 with h4 | h4
          · rcases mem_buildJsdocModifiers cfg _ _ l h4 with h5 | ⟨m', _, tg, htg, rfl⟩
            · rcases mem_buildJsdocHeader cfg _ l h5 with h6 | h6 | h6 | h6 | h6
              · simp at h6
              · simp [h6]
              · rw [h6]
                simp
              · rw [h6]
                simp
              · rw [h6]
                simp
            · intro hcontra
              rw [show lineTag (JLine.tagLine tg "" "\x7b\x7d" "") = some tg from rfl]
                at hcontra
              rcases Option.some_inj.1 hcontra with rfl
              exact modTagName_ne_returns m' htg
          · rw [h4]
            simp
        · rw [h3]
          simp
      · intro hcontra
        rw [show lineTag (JLine.tagLine ct.tag ct.placeholder "" "") = some ct.tag
          from rfl] at hcontra
        exact hct ct hctm (Option.some_inj.1 hcontra)
    · simp [lineTag]

theorem claim3_witness :
    buildJsdocReturn cfgOn [] (methodWithReturn "void") = [] :=
  (claim3_return_suppression cfgOn (methodWithReturn "void")
    (by simp [cfgOn])).1 [] (by decide)

theorem buildJsdocEnd_shape (a : String) (X : List JLine)
    (hX : ∀ l ∈ X, isBlankLine l = false) :
    buildJsdocEnd (JLine.opener :: JLine.text a :: X)
      = JLine.opener :: JLine.text a :: (X ++ [JLine.closer]) := by
  have hlb : lastIsBlank (JLine.opener :: JLine.text a :: X) = false := by
    rcases List.eq_nil_or_concat X with rfl | ⟨ys, b, rfl⟩
    · rfl
    · have hb : isBlankLine b = false := by
        apply hX
        rw [List.concat_eq_append]
        exact List.mem_append.2 (Or.inr (List.mem_singleton.2 rfl))
      rw [List.concat_eq_append,
        show JLine.opener :: JLine.text a :: (ys ++ [b])
          = (JLine.opener :: JLine.text a :: ys) ++ [b] from rfl,
        lastIsBlank_concat]
      exact hb
  have h1 : trimTrailingBlank (JLine.opener :: JLine.text a :: X)
      = JLine.opener :: JLine.text a :: X := by
    unfold trimTrailingBlank
    rw [if_neg (by simp [hlb])]
  have h2 : trimHeaderBlank (JLine.opener :: JLine.text a :: X)
      = JLine.opener :: JLine.text a :: X := by
    simp only [trimHeaderBlank]
    rw [if_neg (by simp [isBlankLine])]
  unfold buildJsdocEnd
  rw [h1, h2]
  simp

/-- C7: when one accessor of a get/set pair already carries a JSDoc with a
non-empty description, building the header for the other accessor reuses
that description text verbatim as the new description line and emits no
modifier lines and no type line of its own: the result is exactly the
opener, the copied description, the custom-tag lines, and the closer, and
every tag line of the result comes from a configured custom tag. -/
theorem claim7_accessor_reuse (cfg : Config) (node : NodeM) (members : List MemberM)
    (p : MemberM) (d : String) (hfind : findPaired node members = some p)
    (hjs : p.jsDoc = some (some d)) (hd : d ≠ "") :
    getAccessorDeclarationJsdoc cfg node members
      = JLine.opener :: JLine.text d :: (buildCustomTags cfg [] ++ [JLine.closer]) ∧
    ∀ l ∈ getAccessorDeclarationJsdoc cfg node members, ∀ tg, lineTag l = some tg →
      ∃ ct ∈ cfg.customTags, ct.tag = tg := by
  have hmain : getAccessorDeclarationJsdoc cfg node members
      = JLine.opener :: JLine.text d :: (buildCustomTags cfg [] ++ [JLine.closer]) := by
    simp only [getAccessorDeclarationJsdoc, hfind, hjs]
    have hdesc : buildDescription cfg [JLine.opener] ((some d).getD "")
        = [JLine.opener, JLine.text d] := by
      simp [buildDescription, hd]
    rw [hdesc, buildCustomTags_append]
    rw [show ([JLine.opener, JLine.text d] : List JLine) ++ buildCustomTags cfg []
      = JLine.opener :: JLine.text d :: buildCustomTags cfg [] from rfl]
    rw [buildJsdocEnd_shape d (buildCustomTags cfg []) (buildCustomTags_not_blank cfg)]
  refine ⟨hmain, ?_⟩
  rw [hmain]
  intro l hl tg htg
  rcases List.mem_cons.1 hl with rfl | hl
  · simp [lineTag] at htg
  · rcases List.mem_cons.1 hl with rfl | hl
    · simp [lineTag] at htg
    · rcases List.mem_append.1 hl with hl | hl
      · rcases mem_buildCustomTags cfg [] l hl with h2 | ⟨ct, hm, _, rfl⟩
        · simp at h2
        · refine ⟨ct, hm, ?_⟩
          rw [show lineTag (JLine.tagLine ct.tag ct.placeholder "" "") = some ct.tag
            from rfl] at htg
          exact Option.some_inj.1 htg
      · rcases List.mem_singleton.1 hl with rfl
        simp [lineTag] at htg

theorem claim7_witness :
    getAccessorDeclarationJsdoc cfgOn getterValue
      [{ kind := SynKind.setAccessor, mname := some "value",
         jsDoc := some (some "The value.") }]
      = JLine.opener :: JLine.text "The value."
          :: (buildCustomTags cfgOn [] ++ [JLine.closer]) :=
  (claim7_accessor_reuse cfgOn getterValue
    [{ kind := SynKind.setAccessor, mname := some "value",
       jsDoc := some (some "The value.") }]
    { kind := SynKind.setAccessor, mname := some "value",
      jsDoc := some (some "The value.") }
    "The value." (by decide) rfl (by decide)).1

/-- C10: a get accessor with no paired set accessor of the same name always
receives a standalone readonly tag line in its generated header, while an
accessor whose paired accessor exists, documented or not, never receives
that standalone readonly line (granted the accessor itself carries no
readonly modifier and no custom tag is named readonly). -/
theorem claim10_readonly_pairing (cfg : Config) (node : NodeM)
    (members : List MemberM) :
    (node.kind = SynKind.getAccessor → findPaired node members = none →
      JLine.tagLine "readonly" "" "\x7b\x7d" ""
        ∈ getAccessorDeclarationJsdoc cfg node members) ∧
    (∀ p, findPaired node members = some p →
      ModifierKind.readonlyKw ∉ node.modifiers →
      (∀ t ∈ cfg.customTags, t.tag ≠ "readonly") →
      ∀ l ∈ getAccessorDeclarationJsdoc cfg node members,
        lineTag l ≠ some "readonly") := by
  constructor
  · intro hkind hfind
    simp only [getAccessorDeclarationJsdoc, hfind]
    apply mem_buildJsdocEnd_of_mem _ _ ?_ (by simp [isBlankLine])
    rw [buildCustomTags_append]
    apply List.mem_append.2
    left
    have hmem2 : JLine.tagLine "readonly" "" "\x7b\x7d" ""
        ∈ (if node.kind = SynKind.getAccessor ∧ (none : Option MemberM).isNone then
            buildJsdocLine
              (buildJsdocModifiers cfg (buildJsdocHeader cfg []) node.modifiers)
              "readonly" "" "\x7b\x7d" ""
          else buildJsdocModifiers cfg (buildJsdocHeader cfg []) node.modifiers) := by
      rw [if_pos ⟨hkind, rfl⟩, buildJsdocLine_eq]
      exact List.mem_append.2 (Or.inr (List.mem_singleton.2 rfl))
    split
    · rw [buildJsdocLine_eq]
      exact List.mem_append.2 (Or.inl hmem2)
    · exact hmem2
  · intro p hfind hmod hct l hl
    simp only [getAccessorDeclarationJsdoc, hfind] at hl
    rcases hp : p.jsDoc with _ | c
    · rw [hp] at hl
      have hnone : (some p).isNone = false := rfl
      rw [hnone] at hl
      simp only [Bool.false_eq_true, and_false, if_false] at hl
      rcases mem_buildJsdocEnd _ _ hl with h1 | rfl
      · have h1' : l ∈ buildCustomTags cfg
            (if cfg.includeTypes then
              buildJsdocLine
                (buildJsdocModifiers cfg (buildJsdocHeader cfg []) node.modifiers)
                "type" (retrieveType cfg node) "\x7b\x7d" ""
            else buildJsdocModifiers cfg (buildJsdocHeader cfg []) node.modifiers) := h1
        rcases mem_buildCustomTags _ _ _ h1' with h2 | ⟨ct, hcm, _, rfl⟩
        · have h3 : l ∈ buildJsdocModifiers cfg (buildJsdocHeader cfg [])
              node.modifiers ∨ lineTag l = some "type" := by
            revert h2
            split
            · intro h2
              rw [buildJsdocLine_eq] at h2
              rcases List.mem_append.1 h2 with h4 | h4
              · exact Or.inl h4
              · rcases List.mem_singleton.1 h4 with rfl
                exact Or.inr rfl
            · exact Or.inl
          rcases h3 with h3 | h3
          · rcases mem_buildJsdocModifiers cfg _ _ l h3 with h4 | ⟨m', hm', tg, htg, rfl⟩
            · rcases mem_buildJsdocHeader cfg _ l h4 with h5 | h5 | h5 | h5 | h5
              · simp at h5
              · simp [h5]
              · rw [h5]
                simp
              · rw [h5]
                simp
              · rw [h5]
                simp
            · intro hcontra
              rw [show lineTag (JLine.tagLine tg "" "\x7b\x7d" "") = some tg
                from rfl] at hcontra
              rcases Option.some_inj.1 hcontra with rfl
              exact hmod (modTagName_eq_readonly m' htg ▸ hm')
          · rw [h3]
            simp
        · intro hcontra
          rw [show lineTag (JLine.tagLine ct.tag ct.placeholder "" "") = some ct.tag
            from rfl] at hcontra
          exact hct ct hcm (Option.some_inj.1 hcontra)
      · simp [lineTag]
    · rw [hp] at hl
      rcases mem_buildJsdocEnd _ _ hl with h1 | rfl
      · rcases mem_buildCustomTags _ _ _ h1 with h2 | ⟨ct, hcm, _, rfl⟩
        · rcases mem_buildDescription cfg _ _ l h2 with h3 | h3
          · rcases List.mem_singleton.1 h3 with rfl
            simp [lineTag]
          · rw [h3]
            simp
        · intro hcontra
          rw [show lineTag (JLine.tagLine ct.tag ct.placeholder "" "") = some ct.tag
            from rfl] at hcontra
          exact hct ct hcm (Option.some_inj.1 hcontra)
      · simp [lineTag]

theorem claim10_witness :
    JLine.tagLine "readonly" "" "\x7b\x7d" ""
      ∈ getAccessorDeclarationJsdoc cfgOn getterValue [] :=
  (claim10_readonly_pairing cfgOn getterValue []).1 rfl rfl

/-- C8: under the spec-modelled custom-tag stage with kind whitelists, a
custom tag is emitted for a declaration exactly when its tag name is
non-empty and its whitelist is empty or includes the declaration kind — so
a tag whose non-empty whitelist excludes the current kind is not emitted —
and every emitted entry carries a placeholder-region value. -/
theorem claim8_custom_whitelist (tags : List CustomTagW) (kind : DeclKind) :
    buildCustomTagsW tags kind
      = (tags.filter (fun t =>
          decide (t.tag ≠ "" ∧ (t.whitelist = [] ∨ kind ∈ t.whitelist)))).map
        (fun t => (t.tag, TagValueW.placeholderRegion t.placeholder)) ∧
    (∀ e ∈ buildCustomTagsW tags kind, ∃ t ∈ tags,
      e = (t.tag, TagValueW.placeholderRegion t.placeholder) ∧ t.tag ≠ "" ∧
        (t.whitelist = [] ∨ kind ∈ t.whitelist)) ∧
    (∀ t ∈ tags, t.tag ≠ "" → (t.whitelist = [] ∨ kind ∈ t.whitelist) →
      (t.tag, TagValueW.placeholderRegion t.placeholder) ∈ buildCustomTagsW tags kind) := by
  refine ⟨?_, ?_, ?_⟩
  · induction tags with
    | nil => rfl
    | cons t ts ih =>
      simp only [buildCustomTagsW] at ih ⊢
      by_cases hc : t.tag ≠ "" ∧ (t.whitelist = [] ∨ kind ∈ t.whitelist)
      · rw [List.filterMap_cons_some (by rw [if_pos hc]),
          List.filter_cons_of_pos (by simpa using hc), List.map_cons, ih]
      · rw [List.filterMap_cons_none (by rw [if_neg hc]),
          List.filter_cons_of_neg (by simpa using hc), ih]
  · intro e he
    rcases List.mem_filterMap.1 he with ⟨t, ht, hf⟩
    by_cases hc : t.tag ≠ "" ∧ (t.whitelist = [] ∨ kind ∈ t.whitelist)
    · rw [if_pos hc] at hf
      exact ⟨t, ht, (Option.some_inj.1 hf).symm, hc.1, hc.2⟩
    · rw [if_neg hc] at hf
      cases hf
  · intro t ht h1 h2
    exact List.mem_filterMap.2 ⟨t, ht, by rw [if_pos ⟨h1, h2⟩]⟩

theorem claim8_witness :
    (∀ e ∈ buildCustomTagsW [remarksTag] DeclKind.functionKind,
      ∃ t ∈ [remarksTag],
        e = (t.tag, TagValueW.placeholderRegion t.placeholder) ∧ t.tag ≠ "" ∧
          (t.whitelist = [] ∨ DeclKind.functionKind ∈ t.whitelist)) ∧
    buildCustomTagsW [remarksTag] DeclKind.functionKind = [] :=
  ⟨(claim8_custom_whitelist [remarksTag] DeclKind.functionKind).2.1, by decide⟩

/-- C9: under the spec-modelled destructured-parameter expansion, a binding
parameter at index idx yields one synthetic container line named
sequentially plus one line per destructured element in declaration order,
each named with the dotted form and bracketed with its default if any; in
particular the parameter pattern with fields x and y = 1 at index 0 yields
exactly the three lines param0, param0.x, [param0.y=1], in that order. -/
theorem claim9_destructuring (idx : Nat) (elems : List (String × Option String)) :
    expandParameterName idx (ParamNameW.binding elems)
      = ("param" ++ toString idx) :: elems.map (bindingElementName idx) ∧
    expandParameterNames [ParamNameW.binding [("x", none), ("y", some "1")]]
      = ["param0", "param0.x", "[param0.y=1]"] := by
  exact ⟨rfl, by decide⟩

theorem writeJsdocCondG_hasJsdoc (ca : Option Nat) (pos : Nat) (s : GenSt) :
    writeJsdocCondG ca pos true s = (false, s) := rfl

theorem processMembersG_allJsdoc (ca : Option Nat) (ms : List GMember)
    (h : ∀ m ∈ ms, m.ghasJsdoc = true) (n : Nat) (s : GenSt) :
    (processMembersG ca ms n s).1 = n ∧ (processMembersG ca ms n s).2.1 = s := by
  induction ms generalizing n s with
  | nil => exact ⟨rfl, rfl⟩
  | cons m rest ih =>
    have hm : m.ghasJsdoc = true := h m (List.mem_cons_self _ _)
    have hrest : ∀ x ∈ rest, x.ghasJsdoc = true :=
      fun x hx => h x (List.mem_cons_of_mem _ hx)
    simp only [processMembersG, hm, writeJsdocCondG_hasJsdoc]
    split
    · exact ⟨rfl, rfl⟩
    · split
      · rename_i hfalse
        exact absurd hfalse (by simp)
      · simpa using ih hrest n s

theorem processStatementsG_allJsdoc (ca : Option Nat) (sts : List GStatement)
    (h : ∀ st ∈ sts, st.ghasJsdoc = true ∧ ∀ m ∈ st.members, m.ghasJsdoc = true)
    (n : Nat) (s : GenSt) :
    (processStatementsG ca sts n s).1 = n ∧ (processStatementsG ca sts n s).2.1 = s := by
  induction sts generalizing n s with
  | nil => exact ⟨rfl, rfl⟩
  | cons st rest ih =>
    have hst : st.ghasJsdoc = true := (h st (List.mem_cons_self _ _)).1
    have hmems : ∀ m ∈ st.members, m.ghasJsdoc = true := (h st (List.mem_cons_self _ _)).2
    have hrest : ∀ x ∈ rest, x.ghasJsdoc = true ∧ ∀ m ∈ x.members, m.ghasJsdoc = true :=
      fun x hx => h x (List.mem_cons_of_mem _ hx)
    simp only [processStatementsG, hst, writeJsdocCondG_hasJsdoc]
    split
    · by_cases hcl : isClassLikeStmt st.kind = true
      · simp only [hcl, if_true]
        have hP := processMembersG_allJsdoc ca st.members.reverse
          (fun x hx => hmems x (List.mem_reverse.1 hx)) n s
        rcases hPeq : processMembersG ca st.members.reverse n s with ⟨p1, p2, pf⟩
        rw [hPeq] at hP
        rcases hP with ⟨hp1, hp2⟩
        simp only at hp1 hp2
        subst hp1
        subst hp2
        split
        · exact ⟨rfl, rfl⟩
        · split
          · exact ⟨rfl, rfl⟩
          · simp only [writeJsdocCondG_hasJsdoc]
            split
            · rename_i hfalse
              exact absurd hfalse (by simp)
            · simpa using ih hrest p1 p2
      · simp only [hcl, if_false, Bool.false_eq_true]
        split
        · exact ⟨rfl, rfl⟩
        · simpa using ih hrest n s
    · exact ih hrest n s

/-- C4: a node that already carries a JSDoc is never rebuilt — the
conditional write returns false and leaves the state untouched — and
re-running file-scope generation on a file in which every supported
declaration and every class member already has a JSDoc writes nothing:
the generated count is zero and the accumulated edits are unchanged. -/
theorem claim4_no_rebuild (ca : Option Nat) (sts : List GStatement) (s : GenSt)
    (h : ∀ st ∈ sts, st.ghasJsdoc = true ∧ ∀ m ∈ st.members, m.ghasJsdoc = true) :
    (∀ pos (s' : GenSt), writeJsdocCondG ca pos true s' = (false, s')) ∧
    writeFileJsdocG ca sts s = (0, s) := by
  refine ⟨fun pos s' => writeJsdocCondG_hasJsdoc ca pos s', ?_⟩
  unfold writeFileJsdocG
  have hf : ∀ st ∈ (sts.filter (fun st => isNodeSupported st.kind)).reverse,
      st.ghasJsdoc = true ∧ ∀ m ∈ st.members, m.ghasJsdoc = true :=
    fun st hst => h st (List.mem_of_mem_filter (List.mem_reverse.1 hst))
  have hps := processStatementsG_allJsdoc ca _ hf 0 s
  exact Prod.ext hps.1 hps.2

theorem claim4_witness :
    writeFileJsdocG none documentedStatements { clock := 0, edits := [] }
      = (0, { clock := 0, edits := [] }) :=
  (claim4_no_rebuild none documentedStatements { clock := 0, edits := [] }
    (by decide)).2

theorem writeJsdocCondG_none_false (pos : Nat) (s : GenSt) :
    writeJsdocCondG none pos false s
      = (true, { clock := s.clock + 2, edits := s.edits ++ [(pos, s.clock + 1)] }) := rfl

theorem processMembersG_none_cons (m : GMember) (rest : List GMember) (n : Nat)
    (s : GenSt) :
    processMembersG none (m :: rest) n s
      = processMembersG none rest
          (n + (if (writeJsdocCondG none m.gstart m.ghasJsdoc s).1 then 1 else 0))
          (writeJsdocCondG none m.gstart m.ghasJsdoc s).2 := rfl

theorem processMembersG_none (ms : List GMember) (n : Nat) (s : GenSt) :
    (processMembersG none ms n s).2.2 = false ∧
    (processMembersG none ms n s).2.1.edits.map Prod.fst
      = s.edits.map Prod.fst
          ++ (ms.filter (fun m => !m.ghasJsdoc)).map GMember.gstart := by
  induction ms generalizing n s with
  | nil => exact ⟨rfl, by simp [processMembersG]⟩
  | cons m rest ih =>
    rw [processMembersG_none_cons]
    by_cases hm : m.ghasJsdoc = true
    · rw [hm, writeJsdocCondG_hasJsdoc]
      refine ⟨(ih _ _).1, ?_⟩
      rw [(ih _ _).2, List.filter_cons_of_neg (by simp [hm])]
    · have hm' : m.ghasJsdoc = false := by simpa using hm
      rw [hm', writeJsdocCondG_none_false]
      refine ⟨(ih _ _).1, ?_⟩
      rw [(ih _ _).2, List.filter_cons_of_pos (by simp [hm'])]
      simp

theorem processedFileOrder_cons (st : GStatement) (rest : List GStatement) :
    processedFileOrder (st :: rest)
      = (if isNodeSupported st.kind then
          (if isClassLikeStmt st.kind then
            (st.members.reverse.filter (fun m => !m.ghasJsdoc)).map GMember.gstart
          else []) ++ (if st.ghasJsdoc then [] else [st.gstart])
        else []) ++ processedFileOrder rest := by
  simp [processedFileOrder]

theorem processStatementsG_none (sts : List GStatement) (n : Nat) (s : GenSt) :
    (processStatementsG none sts n s).2.2 = false ∧
    (processStatementsG none sts n s).2.1.edits.map Prod.fst
      = s.edits.map Prod.fst ++ processedFileOrder sts := by
  induction sts generalizing n s with
  | nil => exact ⟨rfl, by simp [processStatementsG, processedFileOrder]⟩
  | cons st rest ih =>
    by_cases hsup : isNodeSupported st.kind = true
    · by_cases hcl : isClassLikeStmt st.kind = true
      · have hP := processMembersG_none st.members.reverse n s
        have hcons : processStatementsG none (st :: rest) n s
            = processStatementsG none rest
                ((processMembersG none st.members.reverse n s).1
                  + (if (writeJsdocCondG none st.gstart st.ghasJsdoc
                        (processMembersG none st.members.reverse n s).2.1).1
                    then 1 else 0))
                (writeJsdocCondG none st.gstart st.ghasJsdoc
                  (processMembersG none st.members.reverse n s).2.1).2 := by
          simp only [processStatementsG, hsup, if_true, hcl]
          rw [hP.1]
          simp [isCancelRequested]
        rw [hcons]
        by_cases hst : st.ghasJsdoc = true
        · rw [hst, writeJsdocCondG_hasJsdoc]
          refine ⟨(ih _ _).1, ?_⟩
          rw [(ih _ _).2, hP.2, processedFileOrder_cons]
          simp [hsup, hcl, hst]
        · have hst' : st.ghasJsdoc = false := by simpa using hst
          rw [hst', writeJsdocCondG_none_false]
          refine ⟨(ih _ _).1, ?_⟩
          rw [(ih _ _).2]
          simp only [List.map_append, hP.2, processedFileOrder_cons]
          simp [hsup, hcl, hst']
      · have hcons : processStatementsG none (st :: rest) n s
            = processStatementsG none rest
                (n + (if (writeJsdocCondG none st.gstart st.ghasJsdoc s).1 then 1 else 0))
                (writeJsdocCondG none st.gstart st.ghasJsdoc s).2 := by
          simp only [processStatementsG, hsup, if_true, hcl]
          simp [isCancelRequested]
        rw [hcons]
        by_cases hst : st.ghasJsdoc = true
        · rw [hst, writeJsdocCondG_hasJsdoc]
          refine ⟨(ih _ _).1, ?_⟩
          rw [(ih _ _).2, processedFileOrder_cons]
          simp [hsup, hcl, hst]
        · have hst' : st.ghasJsdoc = false := by simpa using hst
          rw [hst', writeJsdocCondG_none_false]
          refine ⟨(ih _ _).1, ?_⟩
          rw [(ih _ _).2, processedFileOrder_cons]
          simp [hsup, hcl, hst']
    · have hcons : processStatementsG none (st :: rest) n s
          = processStatementsG none rest n s := by
        simp only [processStatementsG, hsup]
        simp
      rw [hcons]
      refine ⟨(ih _ _).1, ?_⟩
      rw [(ih _ _).2, processedFileOrder_cons]
      simp [hsup]

theorem flatten_map_sublist {α β : Type} (f g : α → List β) (l : List α)
    (h : ∀ a ∈ l, List.Sublist (f a) (g a)) :
    List.Sublist ((l.map f).flatten) ((l.map g).flatten) := by
  induction l with
  | nil => simp
  | cons a l ih =>
    simp only [List.map_cons, List.flatten_cons]
    exact List.Sublist.append (h a (List.mem_cons_self _ _))
      (ih (fun x hx => h x (List.mem_cons_of_mem _ hx)))

theorem pendingTargets_sublist (sts : List GStatement) :
    List.Sublist (pendingTargets sts) (flattenTargets sts) := by
  unfold pendingTargets flattenTargets
  apply flatten_map_sublist
  intro st _
  have h1 : List.Sublist (if st.ghasJsdoc then [] else [st.gstart]) [st.gstart] := by
    split
    · exact List.nil_sublist _
    · exact List.Sublist.refl _
  have h2 : List.Sublist
      (if isClassLikeStmt st.kind then
        (st.members.filter (fun m => !m.ghasJsdoc)).map GMember.gstart else [])
      (if isClassLikeStmt st.kind then st.members.map GMember.gstart else []) := by
    split
    · exact (List.filter_sublist _).map _
    · exact List.Sublist.refl _
  simpa using List.Sublist.append h1 h2

theorem processedFileOrder_reverse (sts : List GStatement) :
    processedFileOrder ((sts.filter (fun st => isNodeSupported st.kind)).reverse)
      = (pendingTargets sts).reverse := by
  unfold processedFileOrder pendingTargets
  rw [List.reverse_flatten, List.map_map, ← List.map_reverse]
  apply congrArg List.flatten
  apply List.map_congr_left
  intro st hst
  have hsup : isNodeSupported st.kind = true :=
    (List.mem_filter.1 (List.mem_reverse.1 hst)).2
  rw [if_pos hsup]
  simp only [Function.comp]
  rw [List.reverse_append]
  congr 1
  · split
    · rw [← List.map_reverse, ← List.filter_reverse]
    · rfl
  · split
    · rfl
    · rfl

/-- C5: with no cancellation, file-scope generation inserts exactly at the
start offsets of the supported, not-yet-documented nodes in strict reverse
source order — top-level statements from last to first, and for each
class-like statement its members from last to first before the statement
itself — so when the source-order offsets are strictly increasing, the
insertion offsets are strictly decreasing and no insertion can shift the
start offset of a node that has not yet been processed. -/
theorem claim5_reverse_order (sts : List GStatement) (c0 : Nat)
    (hsorted : (flattenTargets sts).Pairwise (· < ·)) :
    ((writeFileJsdocG none sts { clock := c0, edits := [] }).2.edits.map Prod.fst
      = (pendingTargets sts).reverse) ∧
    ((writeFileJsdocG none sts
        { clock := c0, edits := [] }).2.edits.map Prod.fst).Pairwise
      (fun a b => b < a) := by
  have heq : (writeFileJsdocG none sts { clock := c0, edits := [] }).2
      = (processStatementsG none
          ((sts.filter (fun st => isNodeSupported st.kind)).reverse) 0
          { clock := c0, edits := [] }).2.1 := rfl
  have hmain : (writeFileJsdocG none sts
      { clock := c0, edits := [] }).2.edits.map Prod.fst
      = (pendingTargets sts).reverse := by
    rw [heq,
      (processStatementsG_none ((sts.filter (fun st => isNodeSupported st.kind)).reverse)
        0 { clock := c0, edits := [] }).2]
    simp [processedFileOrder_reverse]
  refine ⟨hmain, ?_⟩
  rw [hmain, List.pairwise_reverse]
  exact List.Pairwise.sublist (pendingTargets_sublist sts) hsorted

theorem claim5_witness :
    (writeFileJsdocG none sampleStatements
        { clock := 0, edits := [] }).2.edits.map Prod.fst
      = (pendingTargets sampleStatements).reverse :=
  (claim5_reverse_order sampleStatements 0 (by decide)).1

theorem writeJsdocG_spec (k pos : Nat) (s : GenSt) :
    ∃ d, (writeJsdocG (some k) pos s).2.edits = s.edits ++ d ∧
      d.length = (if (writeJsdocG (some k) pos s).1 then 1 else 0) ∧
      ∀ e ∈ d, e.2 < k := by
  unfold writeJsdocG
  by_cases h1 : isCancelRequested (some k) s.clock = true
  · rw [if_pos h1]
    exact ⟨[], by simp, by simp, by simp⟩
  · rw [if_neg h1]
    by_cases h2 : isCancelRequested (some k) (tick s).clock = true
    · rw [if_pos h2]
      exact ⟨[], by simp [tick], by simp, by simp⟩
    · rw [if_neg h2]
      refine ⟨[(pos, (tick s).clock)], by simp [tick], by simp, ?_⟩
      intro e he
      rcases List.mem_singleton.1 he with rfl
      have hk : ¬ (k ≤ s.clock + 1) := by
        simpa [isCancelRequested, tick] using h2
      simp only [tick]
      omega

theorem writeJsdocCondG_spec (k pos : Nat) (hj : Bool) (s : GenSt) :
    ∃ d, (writeJsdocCondG (some k) pos hj s).2.edits = s.edits ++ d ∧
      d.length = (if (writeJsdocCondG (some k) pos hj s).1 then 1 else 0) ∧
      ∀ e ∈ d, e.2 < k := by
  cases hj
  · simpa [writeJsdocCondG] using writeJsdocG_spec k pos s
  · exact ⟨[], by simp [writeJsdocCondG_hasJsdoc],
      by simp [writeJsdocCondG_hasJsdoc], by simp⟩

theorem processMembersG_spec (k : Nat) (ms : List GMember) :
    ∀ (n : Nat) (s : GenSt),
    ∃ d, (processMembersG (some k) ms n s).2.1.edits = s.edits ++ d ∧
      (processMembersG (some k) ms n s).1 = n + d.length ∧
      ∀ e ∈ d, e.2 < k := by
  induction ms with
  | nil =>
    intro n s
    exact ⟨[], by simp [processMembersG], by simp [processMembersG], by simp⟩
  | cons m rest ih =>
    intro n s
    simp only [processMembersG]
    by_cases h1 : isCancelRequested (some k) s.clock = true
    · rw [if_pos h1]
      exact ⟨[], by simp, by simp, by simp⟩
    · rw [if_neg h1]
      obtain ⟨d1, hd1e, hd1l, hd1k⟩ := writeJsdocCondG_spec k m.gstart m.ghasJsdoc s
      rcases hreq : writeJsdocCondG (some k) m.gstart m.ghasJsdoc s with ⟨ok, s1⟩
      rw [hreq] at hd1e hd1l
      simp only at hd1e hd1l
      by_cases h2 : isCancelRequested (some k) s1.clock = true
      · rw [if_pos h2]
        exact ⟨d1, by simpa using hd1e, by simp [hd1l], hd1k⟩
      · rw [if_neg h2]
        obtain ⟨d2, hd2e, hd2l, hd2k⟩ := ih (n + if ok then 1 else 0) s1
        refine ⟨d1 ++ d2, ?_, ?_, ?_⟩
        · rw [hd2e, hd1e, List.append_assoc]
        · rw [hd2l, ← hd1l]
          simp only [List.length_append]
          omega
        · intro e he
          rcases List.mem_append.1 he with he | he
          · exact hd1k e he
          · exact hd2k e he

theorem processStatementsG_spec (k : Nat) (sts : List GStatement) :
    ∀ (n : Nat) (s : GenSt),
    ∃ d, (processStatementsG (some k) sts n s).2.1.edits = s.edits ++ d ∧
      (processStatementsG (some k) sts n s).1 = n + d.length ∧
      ∀ e ∈ d, e.2 < k := by
  induction sts with
  | nil =>
    intro n s
    exact ⟨[], by simp [processStatementsG], by simp [processStatementsG], by simp⟩
  | cons st rest ih =>
    intro n s
    simp only [processStatementsG]
    by_cases hsup : isNodeSupported st.kind = true
    · rw [if_pos hsup]
      by_cases hcl : isClassLikeStmt st.kind = true
      · rw [if_pos hcl]
        obtain ⟨d1, h1e, h1l, h1k⟩ := processMembersG_spec k st.members.reverse n s
        rcases hPeq : processMembersG (some k) st.members.reverse n s with ⟨p1, ps, pf⟩
        rw [hPeq] at h1e h1l
        simp only at h1e h1l
        cases pf
        · rw [if_neg (by simp)]
          by_cases h2 : isCancelRequested (some k) ps.clock = true
          · rw [if_pos h2]
            exact ⟨d1, by simpa using h1e, by simpa using h1l, h1k⟩
          · rw [if_neg h2]
            obtain ⟨d2, hd2e, hd2l, hd2k⟩ := writeJsdocCondG_spec k st.gstart st.ghasJsdoc ps
            rcases hreq : writeJsdocCondG (some k) st.gstart st.ghasJsdoc ps with ⟨ok, s2⟩
            rw [hreq] at hd2e hd2l
            simp only at hd2e hd2l
            by_cases h3 : isCancelRequested (some k) s2.clock = true
            · rw [if_pos h3]
              refine ⟨d1 ++ d2, ?_, ?_, ?_⟩
              · simp only
                rw [hd2e, h1e, List.append_assoc]
              · simp only
                simp only [List.length_append]
                rw [h1l, ← hd2l]
                omega
              · intro e he
                rcases List.mem_append.1 he with he | he
                · exact h1k e he
                · exact hd2k e he
            · rw [if_neg h3]
              obtain ⟨d3, hd3e, hd3l, hd3k⟩ := ih (p1 + if ok then 1 else 0) s2
              refine ⟨d1 ++ d2 ++ d3, ?_, ?_, ?_⟩
              · rw [hd3e, hd2e, h1e, List.append_assoc, List.append_assoc]
                rw [← List.append_assoc d1]
              · rw [hd3l, h1l, ← hd2l]
                simp only [List.length_append]
                omega
              · intro e he
                rcases List.mem_append.1 he with he | he
                · rcases List.mem_append.1 he with he | he
                  · exact h1k e he
                  · exact hd2k e he
                · exact hd3k e he
        · rw [if_pos rfl]
          exact ⟨d1, by simpa using h1e, by simpa using h1l, h1k⟩
      · rw [if_neg hcl]
        rw [if_neg (by simp)]
        by_cases h2 : isCancelRequested (some k) s.clock = true
        · rw [if_pos h2]
          exact ⟨[], by simp, by simp, by simp⟩
        · rw [if_neg h2]
          obtain ⟨d2, hd2e, hd2l, hd2k⟩ := writeJsdocCondG_spec k st.gstart st.ghasJsdoc s
          rcases hreq : writeJsdocCondG (some k) st.gstart st.ghasJsdoc s with ⟨ok, s2⟩
          rw [hreq] at hd2e hd2l
          simp only at hd2e hd2l
          by_cases h3 : isCancelRequested (some k) s2.clock = true
          · rw [if_pos h3]
            exact ⟨d2, by simpa using hd2e, by rw [← hd2l], hd2k⟩
          · rw [if_neg h3]
            obtain ⟨d3, hd3e, hd3l, hd3k⟩ := ih (n + if ok then 1 else 0) s2
            refine ⟨d2 ++ d3, ?_, ?_, ?_⟩
            · rw [hd3e, hd2e, List.append_assoc]
            · rw [hd3l, ← hd2l]
              simp only [List.length_append]
              omega
            · intro e he
              rcases List.mem_append.1 he with he | he
              · exact hd2k e he
              · exact hd3k e he
    · rw [if_neg hsup]
      exact ih n s

theorem writeFileJsdocG_spec (k : Nat) (sts : List GStatement) (s : GenSt) :
    ∃ d, (writeFileJsdocG (some k) sts s).2.edits = s.edits ++ d ∧
      (writeFileJsdocG (some k) sts s).1 = d.length ∧
      ∀ e ∈ d, e.2 < k := by
  obtain ⟨d, he, hl, hk⟩ := processStatementsG_spec k
    ((sts.filter (fun st => isNodeSupported st.kind)).reverse) 0 s
  exact ⟨d, he, by simpa using hl, hk⟩

theorem wsLoopG_spec (k : Nat) (files : List GFile) :
    ∀ (n : Nat) (s : GenSt),
    ∃ d, (wsLoopG (some k) files n s).2.1.edits = s.edits ++ d ∧
      (wsLoopG (some k) files n s).1 = n + d.length ∧
      ∀ e ∈ d, e.2 < k := by
  induction files with
  | nil =>
    intro n s
    exact ⟨[], by simp [wsLoopG], by simp [wsLoopG], by simp⟩
  | cons f rest ih =>
    intro n s
    simp only [wsLoopG]
    by_cases h1 : isCancelRequested (some k) s.clock = true
    · rw [if_pos h1]
      exact ⟨[], by simp, by simp, by simp⟩
    · rw [if_neg h1]
      by_cases h2 : isCancelRequested (some k) (tick s).clock = true
      · rw [if_pos h2]
        exact ⟨[], by simp [tick], by simp, by simp⟩
      · rw [if_neg h2]
        by_cases hl : f.langSupported = true
        · rw [if_pos hl]
          by_cases hs : f.hasSource = true
          · rw [if_pos hs]
            obtain ⟨d1, h1e, h1l, h1k⟩ := writeFileJsdocG_spec k f.statements (tick s)
            rcases hFeq : writeFileJsdocG (some k) f.statements (tick s) with ⟨m, s2⟩
            rw [hFeq] at h1e h1l
            simp only at h1e h1l
            by_cases h3 : isCancelRequested (some k) s2.clock = true
            · rw [if_pos h3]
              refine ⟨d1, ?_, ?_, h1k⟩
              · simpa [tick] using h1e
              · simp only
                rw [h1l]
            · rw [if_neg h3]
              obtain ⟨d2, hd2e, hd2l, hd2k⟩ := ih (n + m) s2
              refine ⟨d1 ++ d2, ?_, ?_, ?_⟩
              · rw [hd2e, h1e]
                simp [tick, List.append_assoc]
              · rw [hd2l, h1l]
                simp only [List.length_append]
                omega
              · intro e he
                rcases List.mem_append.1 he with he | he
                · exact h1k e he
                · exact hd2k e he
          · rw [if_neg hs]
            obtain ⟨d2, hd2e, hd2l, hd2k⟩ := ih n (tick s)
            exact ⟨d2, by simpa [tick] using hd2e, hd2l, hd2k⟩
        · rw [if_neg hl]
          obtain ⟨d2, hd2e, hd2l, hd2k⟩ := ih n (tick s)
          exact ⟨d2, by simpa [tick] using hd2e, hd2l, hd2k⟩

/-- C6: if cancellation is signalled at any point before the final batch
apply of a folder or workspace run, the batch is never applied: a run that
never reaches the final pre-apply check does not apply, and a run whose
pre-apply check happens at or after the cancellation instant does not
apply; the run always returns (without throwing) a count equal to the
number of insertions accumulated in the batch; and every accumulated
insertion was recorded strictly before the cancellation instant, since
every suspension point is followed by a cancellation check before further
work is scheduled. -/
theorem claim6_cancellation (files : List GFile) (k : Nat) :
    ((generateJsdocWorkspaceG (some k) files).applyCheckClock = none →
      (generateJsdocWorkspaceG (some k) files).applied = false) ∧
    (∀ c, (generateJsdocWorkspaceG (some k) files).applyCheckClock = some c →
      k ≤ c → (generateJsdocWorkspaceG (some k) files).applied = false) ∧
    ((generateJsdocWorkspaceG (some k) files).count
      = (generateJsdocWorkspaceG (some k) files).edits.length) ∧
    (∀ e ∈ (generateJsdocWorkspaceG (some k) files).edits, e.2 < k) := by
  unfold generateJsdocWorkspaceG
  by_cases h1 : isCancelRequested (some k) (tick { clock := 0, edits := [] }).clock = true
  · rw [if_pos h1]
    refine ⟨fun _ => rfl, ?_, ?_, ?_⟩
    · intro c hc
      exfalso
      simp at hc
    · simp [tick]
    · intro e he
      simp [tick] at he
  · rw [if_neg h1]
    by_cases hf : 0 < files.length
    · rw [if_pos hf]
      obtain ⟨d, hde, hdl, hdk⟩ := wsLoopG_spec k files 0 (tick { clock := 0, edits := [] })
      rcases hLeq : wsLoopG (some k) files 0 (tick { clock := 0, edits := [] })
        with ⟨m, s2, flag⟩
      rw [hLeq] at hde hdl
      simp only at hde hdl
      have hedits : s2.edits = d := by simpa [tick] using hde
      cases flag
      · rw [if_neg (by simp)]
        by_cases h3 : isCancelRequested (some k) s2.clock = true
        · rw [if_pos h3]
          refine ⟨fun _ => rfl, fun c hc hkc => rfl, ?_, ?_⟩
          · dsimp only
            rw [hedits, hdl]
            simp
          · intro e he
            dsimp only at he
            rw [hedits] at he
            exact hdk e he
        · rw [if_neg h3]
          refine ⟨?_, ?_, ?_, ?_⟩
          · intro hc
            exfalso
            simp at hc
          · intro c hc hkc
            exfalso
            dsimp only at hc
            have hclock : s2.clock = c := Option.some_inj.1 hc
            apply h3
            rw [hclock]
            simpa [isCancelRequested] using hkc
          · dsimp only
            rw [hedits, hdl]
            simp
          · intro e he
            dsimp only at he
            rw [hedits] at he
            exact hdk e he
      · rw [if_pos rfl]
        refine ⟨fun _ => rfl, ?_, ?_, ?_⟩
        · intro c hc
          exfalso
          simp at hc
        · dsimp only
          rw [hedits, hdl]
          simp
        · intro e he
          dsimp only at he
          rw [hedits] at he
          exact hdk e he
    · rw [if_neg hf]
      refine ⟨fun _ => rfl, ?_, ?_, ?_⟩
      · intro c hc
        exfalso
        simp at hc
      · simp [tick]
      · intro e he
        simp [tick] at he

theorem claim6_witness :
    (generateJsdocWorkspaceG (some 0) sampleFiles).applied = false :=
  (claim6_cancellation sampleFiles 0).1 (by decide)

end JsdocGen
